import Mathlib

/-!
# Verification of the hashwrap core against its specification

This file is a shallow embedding, in Lean 4, of the parts of the hashwrap
password-cracking orchestrator that the specification's claims are about:

* `src/core/streaming_hash_processor.py` — the potfile tail reader
  (`read_incremental`) and the hash-file streaming helpers;
* `src/core/hash_manager.py` — the hash set manager (`HashManager`);
* `src/core/hash_analyzer.py` — the hash identifier (`HashAnalyzer`);
* `src/core/pattern_cache.py` / `src/core/security.py` — mask validation and
  the hashcat command builder (`CommandBuilder.build_hashcat_command`);
* `src/core/attack_orchestrator.py` — the `Attack` record, its
  `to_hashcat_args`, and the `heapq`-backed attack queue;
* `src/core/enhanced_session_manager.py` and `src/hashwrap_v3.py` — session
  resume / restore.

Python data is modelled as follows: `str` becomes `String` (with explicit
`List Char` manipulation where the code slices text), `set` becomes
`Finset String`, an insertion-ordered `dict` becomes an association list
`List (key × value)` whose operations mirror CPython dict semantics, `int`
becomes `Int` or `Nat`, `float` literals become `Rat`, `None`-able values
become `Option`, and code that can raise becomes `Except`.  File contents are
passed to the embedded functions explicitly (a file is its list of text
lines; a missing file is `Option.none`).  Wall-clock timestamps are elided.
-/

namespace Hashwrap

/-! ## Text helpers shared by several components

Python's file iteration (`for line in f`) followed by `line.strip()` and the
skipping of empty results is modelled by splitting a character stream at
newline characters, stripping each piece, and dropping the empty ones.
-/

/-- The whitespace characters removed by Python's `str.strip()` (ASCII). -/
def pyIsSpace (c : Char) : Bool :=
  c = ' ' || c = '\t' || c = '\n' || c = '\r' || c = '\x0b' || c = '\x0c'

/-- Python `str.strip()` on a character list. -/
def pystrip (l : List Char) : List Char :=
  ((l.dropWhile pyIsSpace).reverse.dropWhile pyIsSpace).reverse

/-- Python `str.strip()` on a string. -/
def pystripS (s : String) : String :=
  String.mk (pystrip s.data)

/-- Split a character stream at newline characters.  `splitNl cs` always
returns a non-empty list of newline-free pieces whose `'\n'`-interleaved
concatenation is `cs`. -/
def splitNl : List Char → List (List Char)
  | [] => [[]]
  | c :: cs =>
    if c = '\n' then [] :: splitNl cs
    else (splitNl cs).modifyHead (fun piece => c :: piece)

/-- The non-empty stripped lines of a character stream: what Python's
`for line in f: line = line.strip(); if line: …` iterates over. -/
def pyLines (cs : List Char) : List String :=
  (((splitNl cs).map pystrip).filter (fun piece => piece ≠ [])).map String.mk

theorem splitNl_nil : splitNl [] = [[]] := rfl

theorem splitNl_cons_nl (cs : List Char) : splitNl ('\n' :: cs) = [] :: splitNl cs := by
  simp [splitNl]

theorem splitNl_cons_ne {c : Char} (cs : List Char) (h : c ≠ '\n') :
    splitNl (c :: cs) = (splitNl cs).modifyHead (fun piece => c :: piece) := by
  simp [splitNl, h]

theorem splitNl_ne_nil (cs : List Char) : splitNl cs ≠ [] := by
  match cs with
  | [] => simp [splitNl]
  | c :: cs =>
    by_cases hc : c = '\n'
    · subst hc; simp [splitNl_cons_nl]
    · rw [splitNl_cons_ne cs hc]
      have := splitNl_ne_nil cs
      cases h : splitNl cs with
      | nil => exact absurd h this
      | cons a l => simp [List.modifyHead]

/-- Auxiliary: glue a trailing piece onto the head of a split. -/
def glueHead (x : List Char) : List (List Char) → List (List Char)
  | [] => [x]
  | h :: t => (x ++ h) :: t

theorem splitNl_append (a b : List Char) :
    ∃ front last, splitNl a = front ++ [last] ∧
      splitNl (a ++ b) = front ++ glueHead last (splitNl b) := by
  induction a with
  | nil =>
    refine ⟨[], [], by simp [splitNl], ?_⟩
    cases h : splitNl b with
    | nil => exact absurd h (splitNl_ne_nil b)
    | cons x t => simp [glueHead, h]
  | cons c a ih =>
    obtain ⟨front, last, ha, hab⟩ := ih
    by_cases hc : c = '\n'
    · subst hc
      refine ⟨[] :: front, last, ?_, ?_⟩
      · rw [splitNl_cons_nl, ha]; rfl
      · rw [List.cons_append, splitNl_cons_nl, hab]; rfl
    · cases front with
      | nil =>
        cases hb : splitNl b with
        | nil => exact absurd hb (splitNl_ne_nil b)
        | cons z u =>
          refine ⟨[], c :: last, ?_, ?_⟩
          · rw [splitNl_cons_ne a hc, ha]
            simp [List.modifyHead]
          · rw [List.cons_append, splitNl_cons_ne (a ++ b) hc, hab, hb]
            simp [glueHead, List.modifyHead]
      | cons f fs =>
        refine ⟨(c :: f) :: fs, last, ?_, ?_⟩
        · rw [splitNl_cons_ne a hc, ha]
          simp [List.modifyHead]
        · rw [List.cons_append, splitNl_cons_ne (a ++ b) hc, hab]
          cases hb : splitNl b with
          | nil => exact absurd hb (splitNl_ne_nil b)
          | cons z u => simp [glueHead, List.modifyHead]

/-- If a stream contains a newline, its split has at least two pieces. -/
theorem splitNl_length_ge_two {cs : List Char} (h : '\n' ∈ cs) :
    2 ≤ (splitNl cs).length := by
  induction cs with
  | nil => cases h
  | cons c cs ih =>
    by_cases hc : c = '\n'
    · subst hc
      rw [splitNl_cons_nl, List.length_cons]
      have := List.length_pos.mpr (splitNl_ne_nil cs)
      omega
    · have hmem : '\n' ∈ cs := by
        cases List.mem_cons.mp h with
        | inl h0 => exact absurd h0.symm hc
        | inr h0 => exact h0
      have h2 := ih hmem
      rw [splitNl_cons_ne cs hc]
      cases hs : splitNl cs with
      | nil => exact absurd hs (splitNl_ne_nil cs)
      | cons x t =>
        rw [hs] at h2
        simpa [List.modifyHead] using h2

/-- If a stream ends with a newline, the last piece of its split is empty. -/
theorem splitNl_endsNl {cs : List Char} (h : cs.getLast? = some '\n') :
    ∃ front, splitNl cs = front ++ [[]] := by
  induction cs with
  | nil => simp at h
  | cons c cs ih =>
    cases cs with
    | nil =>
      simp only [List.getLast?_singleton, Option.some_inj] at h
      subst h
      exact ⟨[[]], by rw [splitNl_cons_nl]; rfl⟩
    | cons d cs2 =>
      have hlast : (d :: cs2).getLast? = some '\n' := by
        rwa [List.getLast?_cons_cons] at h
      obtain ⟨front, hfront⟩ := ih hlast
      have hmemnl : '\n' ∈ (d :: cs2) := by
        have hg : '\n' ∈ (d :: cs2).getLast? := by rw [hlast]; rfl
        exact List.mem_of_mem_getLast? hg
      have hlen2 := splitNl_length_ge_two hmemnl
      by_cases hc : c = '\n'
      · subst hc
        exact ⟨[] :: front, by rw [splitNl_cons_nl, hfront]; rfl⟩
      · cases front with
        | nil => rw [hfront] at hlen2; simp at hlen2
        | cons f fs =>
          refine ⟨(c :: f) :: fs, ?_⟩
          rw [splitNl_cons_ne _ hc, hfront]
          simp [List.modifyHead]

/-- Key compositionality fact: when the first chunk ends at a line boundary
(it is empty or ends with a newline), the stripped non-empty lines of a
concatenation are the concatenation of the stripped non-empty lines. -/
theorem pyLines_append {a : List Char} (b : List Char)
    (h : a = [] ∨ a.getLast? = some '\n') :
    pyLines (a ++ b) = pyLines a ++ pyLines b := by
  cases h with
  | inl h0 => simp [h0, pyLines, splitNl_nil, pystrip]
  | inr h0 =>
    obtain ⟨front, last, ha, hab⟩ := splitNl_append a b
    obtain ⟨front2, hfront2⟩ := splitNl_endsNl h0
    have hlens : [last].length = ([[]] : List (List Char)).length := by simp
    obtain ⟨hfeq, hleq⟩ := List.append_inj (ha.symm.trans hfront2) (by
      have := congrArg List.length (ha.symm.trans hfront2)
      simpa using this)
    have hlast : last = [] := by simpa using hleq
    subst hlast
    subst hfeq
    unfold pyLines
    rw [hab, ha]
    cases hb : splitNl b with
    | nil => exact absurd hb (splitNl_ne_nil b)
    | cons z u =>
      simp only [glueHead, List.nil_append, List.map_append, List.filter_append,
        List.map_cons, List.filter_cons]
      simp [pystrip]

/-! ## Dict helpers

CPython `dict` semantics: assignment `d[k] = v` overwrites the value in
place (keeping the key's original position) or appends a fresh entry;
membership and lookup are by key. -/

/-- `d[k] = v` on an insertion-ordered association list: replace the value at
the first entry with key `k` (keys are unique in every dict this file
builds, so "first" is "the"), else append a fresh entry. -/
def dictSet {β : Type} : List (String × β) → String → β → List (String × β)
  | [], k, v => [(k, v)]
  | e :: d, k, v => if e.1 = k then (k, v) :: d else e :: dictSet d k v

/-- `k in d`. -/
def dictContains {β : Type} (d : List (String × β)) (k : String) : Bool :=
  (d.lookup k).isSome

/-- The key list of a dict, in insertion order. -/
def dictKeys {β : Type} (d : List (String × β)) : List String :=
  d.map Prod.fst

/-! ## `StreamingHashProcessor` (src/core/streaming_hash_processor.py)

The processor's mutable state is `_file_positions`, a per-path byte offset
dict.  `read_incremental(file_path)` (lines 71–103) reads the file from the
stored offset — rewinding to the start if the file is now shorter than the
offset — yields the stripped non-empty lines of the newly-read region, and
stores the end-of-file offset.  A missing file yields nothing and leaves the
state untouched.  Offsets are character offsets (the Python code uses text
mode; the model identifies bytes with characters). -/

/-- State of a `StreamingHashProcessor`: the `_file_positions` dict. -/
def FilePositions : Type := List (String × Nat)

/-- `read_incremental(file_path)`, as a function of the current file content
(`none` when the file does not exist).  Returns the yielded lines and the
updated `_file_positions`. -/
def read_incremental (st : FilePositions) (path : String) (content : Option String) :
    List String × FilePositions :=
  match content with
  | none => ([], st)
  | some text =>
    let last_position := ((st.lookup path).getD 0)
    let file_size := text.data.length
    let start := if file_size < last_position then 0 else last_position
    (pyLines (text.data.drop start), dictSet st path file_size)

/-- `count_hashes(file_path)` (lines 28–43): the number of non-empty
(stripped) lines. -/
def count_hashes (lines : List String) : Nat :=
  (lines.filter (fun l => pystrip l.data ≠ [])).length

/-- `stream_hashes(file_path, batch_size)` (lines 45–69): the stripped
non-empty lines, chunked into batches of `batch_size` (final batch may be
shorter). -/
def stream_hashes (lines : List String) (batch_size : Nat) : List (List String) :=
  ((lines.map (fun l => String.mk (pystrip l.data))).filter (fun l => l ≠ "")).toChunks batch_size

theorem dictSet_lookup_self {β : Type} (d : List (String × β)) (k : String) (v : β) :
    (dictSet d k v).lookup k = some v := by
  induction d with
  | nil => simp [dictSet, List.lookup]
  | cons e d ih =>
    by_cases he : e.1 = k
    · simp [dictSet, he, List.lookup]
    · simp only [dictSet, if_neg he, List.lookup]
      have hbe : (k == e.1) = false := beq_eq_false_iff_ne.mpr (Ne.symm he)
      rw [hbe]
      exact ih

theorem dictSet_dictSet {β : Type} (d : List (String × β)) (k : String) (v w : β) :
    dictSet (dictSet d k v) k w = dictSet d k w := by
  induction d with
  | nil => simp [dictSet]
  | cons e d ih =>
    by_cases he : e.1 = k
    · simp [dictSet, he]
    · simp [dictSet, he, ih]

/-- A non-trivial suffix keeps the last element. -/
theorem drop_getLast? {l : List Char} {n : Nat} (h : l.drop n ≠ []) :
    (l.drop n).getLast? = l.getLast? := by
  conv_rhs => rw [← List.take_append_drop n l]
  exact (List.getLast?_append_of_ne_nil _ h).symm

/-! ### Claim C5 -/

/-- C5 counterexample.  The potfile tail reader's two-call concatenation
property fails, as stated, on a file whose first snapshot does not end with a
newline: the file `"abc"` grows, by pure appending, to `"abcdef\n"`.  The
first `read_incremental` call yields `["abc"]` and stores offset 3; the
second call reads only `"def\n"` and yields `["def"]`; but a single call made
at the second moment yields `["abcdef"]`.  `["abc", "def"] ≠ ["abcdef"]`. -/
theorem C5_counterexample :
    ("abcdef\n" = "abc" ++ "def\n") ∧
    (read_incremental [] "p" (some "abc")).1 ++
        (read_incremental (read_incremental [] "p" (some "abc")).2 "p"
          (some "abcdef\n")).1 ≠
      (read_incremental [] "p" (some "abcdef\n")).1 := by
  constructor
  · rfl
  · decide

/-- C5 (amended).  The potfile tail reader keeps a per-path byte offset,
rewinds to the start when the file is shorter than the stored offset, and
reads only new bytes; and for every file that is only appended to between
calls **and whose content at the first call ends at a line boundary (ends
with a newline or is empty)**, the concatenation of the results of two
consecutive `read_incremental` calls equals the result of a single call made
at the moment of the second one (and both leave the same stored offset). -/
theorem C5_read_incremental (st : FilePositions) (path : String) :
    -- rewind on truncation: file shorter than the stored offset
    (∀ c : String, c.data.length < ((st.lookup path).getD 0) →
      read_incremental st path (some c) =
        (pyLines c.data, dictSet st path c.data.length)) ∧
    -- otherwise read only the new bytes past the stored offset
    (∀ c : String, ((st.lookup path).getD 0) ≤ c.data.length →
      read_incremental st path (some c) =
        (pyLines (c.data.drop ((st.lookup path).getD 0)),
          dictSet st path c.data.length)) ∧
    -- append-only two-call concatenation, at a line boundary
    (∀ c1 app : String, ((st.lookup path).getD 0) ≤ c1.data.length →
      (c1.data = [] ∨ c1.data.getLast? = some '\n') →
      (read_incremental st path (some c1)).1 ++
          (read_incremental (read_incremental st path (some c1)).2 path
            (some (c1 ++ app))).1 =
        (read_incremental st path (some (c1 ++ app))).1 ∧
      (read_incremental (read_incremental st path (some c1)).2 path
          (some (c1 ++ app))).2 =
        (read_incremental st path (some (c1 ++ app))).2) := by
  refine ⟨?_, ?_, ?_⟩
  · intro c hlt
    simp only [read_incremental]
    rw [if_pos hlt, List.drop_zero]
  · intro c hle
    simp only [read_incremental]
    rw [if_neg (Nat.not_lt.mpr hle)]
  · intro c1 app hle hnl
    have hdata : (c1 ++ app).data = c1.data ++ app.data := String.data_append c1 app
    have hlen : c1.data.length ≤ (c1 ++ app).data.length := by
      rw [hdata, List.length_append]; omega
    have hread1 :
        read_incremental st path (some c1) =
          (pyLines (c1.data.drop ((st.lookup path).getD 0)),
            dictSet st path c1.data.length) := by
      simp only [read_incremental]
      rw [if_neg (Nat.not_lt.mpr hle)]
    have hlook2 : ((dictSet st path c1.data.length).lookup path).getD 0 =
        c1.data.length := by
      rw [dictSet_lookup_self]; rfl
    have hread2 :
        read_incremental (dictSet st path c1.data.length) path (some (c1 ++ app)) =
          (pyLines ((c1 ++ app).data.drop c1.data.length),
            dictSet (dictSet st path c1.data.length) path (c1 ++ app).data.length) := by
      simp only [read_incremental, hlook2]
      rw [if_neg (Nat.not_lt.mpr hlen)]
    have hreadf :
        read_incremental st path (some (c1 ++ app)) =
          (pyLines ((c1 ++ app).data.drop ((st.lookup path).getD 0)),
            dictSet st path (c1 ++ app).data.length) := by
      have h2 : ((st.lookup path).getD 0) ≤ (c1 ++ app).data.length :=
        le_trans hle hlen
      simp only [read_incremental]
      rw [if_neg (Nat.not_lt.mpr h2)]
    rw [hread1, hread2, hreadf]
    constructor
    · -- line lists concatenate
      have hdrop2 : (c1 ++ app).data.drop c1.data.length = app.data := by
        rw [hdata]; exact List.drop_left c1.data app.data
      have hdropf : (c1 ++ app).data.drop ((st.lookup path).getD 0) =
          c1.data.drop ((st.lookup path).getD 0) ++ app.data := by
        rw [hdata]; exact List.drop_append_of_le_length hle
      rw [hdrop2, hdropf]
      refine (pyLines_append app.data ?_).symm
      by_cases hempty : c1.data.drop ((st.lookup path).getD 0) = []
      · exact Or.inl hempty
      · refine Or.inr ?_
        rw [drop_getLast? hempty]
        cases hnl with
        | inl h0 => rw [h0] at hempty; simp at hempty
        | inr h0 => exact h0
    · -- same stored offset
      rw [dictSet_dictSet]

/-! ## `Attack` and the attack queue (src/core/attack_orchestrator.py)

`Attack` (lines 20–31) is a `@dataclass(order=True)` in which every field
except `priority` is declared with `field(compare=False)`, so the generated
comparison operators compare the one-element tuple `(priority,)` — i.e.
`a < b` iff `a.priority < b.priority`.  There is **no** insertion-sequence
counter anywhere in the class or in the orchestrator.

`AttackOrchestrator.attack_queue` is a plain Python list manipulated through
`heapq.heappush` / `heapq.heappop` (lines 78–86).  The CPython `heapq`
algorithms (`_siftdown`, `_siftup`) are embedded below verbatim in their
array formulation. -/

/-- The `Attack` dataclass.  The float default `success_probability=0.5`
becomes the rational `mkRat 1 2`. -/
structure Attack where
  priority : Int
  name : String
  attack_type : String
  wordlist : Option String := none
  rules : Option String := none
  mask : Option String := none
  mode : Option Int := none
  estimated_duration : Option Int := none
  success_probability : Rat := mkRat 1 2
deriving DecidableEq, Inhabited, Repr

/-- CPython `heapq._siftdown(heap, startpos, pos)`.  `newitem` was read from
`heap[pos]` by the caller; it bubbles towards the root while it is strictly
smaller than its parent, parents shifting down along the way. -/
def siftdownAux (startpos : Nat) (newitem : Attack) (heap : List Attack) (pos : Nat) :
    List Attack :=
  if h : startpos < pos then
    if newitem.priority < (heap.getD ((pos - 1) / 2) default).priority then
      siftdownAux startpos newitem
        (heap.set pos (heap.getD ((pos - 1) / 2) default)) ((pos - 1) / 2)
    else
      heap.set pos newitem
  else
    heap.set pos newitem
termination_by pos
decreasing_by exact Nat.lt_of_le_of_lt (Nat.div_le_self _ 2) (by omega)

/-- The smaller-child choice made by each iteration of CPython
`heapq._siftup`'s loop: the right child `2*pos+2` when it exists and the
left child is not strictly smaller, else the left child `2*pos+1`. -/
def chooseChild (endpos pos : Nat) (heap : List Attack) : Nat :=
  if 2 * pos + 2 < endpos ∧
      ¬ (heap.getD (2 * pos + 1) default).priority <
        (heap.getD (2 * pos + 2) default).priority
  then 2 * pos + 2 else 2 * pos + 1

theorem chooseChild_gt (endpos pos : Nat) (heap : List Attack) :
    pos < chooseChild endpos pos heap := by
  unfold chooseChild; split <;> omega

theorem chooseChild_lt {endpos pos : Nat} (heap : List Attack)
    (h : 2 * pos + 1 < endpos) : chooseChild endpos pos heap < endpos := by
  unfold chooseChild; split
  · omega
  · exact h

/-- CPython `heapq._siftup(heap, pos)`'s descent loop: move the smaller
child up into the hole until the hole reaches a leaf; returns the heap with
`newitem` written at the final hole together with that final position
(`_siftup` then calls `_siftdown(heap, startpos, pos)`). -/
def siftupAux (endpos : Nat) (newitem : Attack) (heap : List Attack) (pos : Nat) :
    List Attack × Nat :=
  if h : 2 * pos + 1 < endpos then
    siftupAux endpos newitem
      (heap.set pos (heap.getD (chooseChild endpos pos heap) default))
      (chooseChild endpos pos heap)
  else
    (heap.set pos newitem, pos)
termination_by endpos - pos
decreasing_by
  have h1 := chooseChild_gt endpos pos heap
  have h2 := chooseChild_lt heap h
  omega

/-- CPython `heapq.heappush(heap, item)`: append, then
`_siftdown(heap, 0, len(heap)-1)`. -/
def heappush (heap : List Attack) (item : Attack) : List Attack :=
  siftdownAux 0 item (heap ++ [item]) heap.length

/-- CPython `heapq.heappop(heap)` wrapped in
`AttackOrchestrator.get_next_attack`'s emptiness guard (lines 82–86):
`none` on an empty queue, else pop the last element, and if the heap is
still non-empty, move the popped last element into the root hole and
`_siftup`. -/
def heappop (heap : List Attack) : Option (Attack × List Attack) :=
  if heap.isEmpty then none
  else
    let lastelt := heap.getLastD default
    let rest := heap.dropLast
    if rest.isEmpty then some (lastelt, [])
    else
      let working := rest.set 0 lastelt
      let s := siftupAux working.length lastelt working 0
      some (rest.getD 0 default, siftdownAux 0 lastelt s.1 s.2)

theorem siftdownAux_length (startpos : Nat) (newitem : Attack) :
    ∀ pos heap, (siftdownAux startpos newitem heap pos).length = heap.length := by
  intro pos
  induction pos using Nat.strong_induction_on with
  | _ pos ih =>
    intro heap
    unfold siftdownAux
    split
    · split
      · rw [ih _ (by omega), List.length_set]
      · exact List.length_set heap pos newitem
    · exact List.length_set heap pos newitem

theorem siftupAux_length (endpos : Nat) (newitem : Attack) :
    ∀ k pos heap, endpos - pos = k →
      (siftupAux endpos newitem heap pos).1.length = heap.length := by
  intro k
  induction k using Nat.strong_induction_on with
  | _ k ih =>
    intro pos heap hk
    unfold siftupAux
    split
    · case isTrue h =>
      have h1 := chooseChild_gt endpos pos heap
      have h2 := chooseChild_lt heap h
      rw [ih (endpos - chooseChild endpos pos heap) (by omega) _ _ rfl, List.length_set]
    · exact List.length_set heap pos newitem

theorem heappop_length_lt {heap rest : List Attack} {a : Attack}
    (h : heappop heap = some (a, rest)) : rest.length < heap.length := by
  unfold heappop at h
  by_cases hemp : heap.isEmpty
  · rw [if_pos hemp] at h; cases h
  · rw [if_neg hemp] at h
    have hlen : 0 < heap.length := by
      cases heap with
      | nil => simp [List.isEmpty] at hemp
      | cons x xs => simp
    by_cases hrest : heap.dropLast.isEmpty
    · rw [if_pos hrest] at h
      cases h
      simpa using hlen
    · rw [if_neg hrest] at h
      cases h
      rw [siftdownAux_length, siftupAux_length _ _ _ _ _ rfl, List.length_set,
        List.length_dropLast]
      omega

/-- `AttackOrchestrator.add_attack` over the queue component of the
orchestrator state. -/
def add_attack (queue : List Attack) (attack : Attack) : List Attack :=
  heappush queue attack

/-- `AttackOrchestrator.get_next_attack` over the queue component. -/
def get_next_attack (queue : List Attack) : Option (Attack × List Attack) :=
  heappop queue

/-- Drain the queue by repeated `get_next_attack` calls. -/
def popAll (heap : List Attack) : List Attack :=
  match h : heappop heap with
  | none => []
  | some (a, rest) => a :: popAll rest
termination_by heap.length
decreasing_by
  exact heappop_length_lt h

/-! ### The binary-heap invariant and what `heapq` guarantees

`CPython`'s array heap stores the children of index `i` at `2i+1` and
`2i+2`.  `HeapProp` is the documented heap invariant, stated on priorities
because `Attack`'s comparison only compares priorities. -/

/-- `j` is a child index of `i` in the implicit binary tree. -/
def ChildIdx (i j : Nat) : Prop := j = 2 * i + 1 ∨ j = 2 * i + 2

theorem childIdx_parent {i j : Nat} (h : ChildIdx i j) : i = (j - 1) / 2 ∧ i < j := by
  rcases h with h | h <;> omega

theorem childIdx_of_pos {j : Nat} (h : 0 < j) : ChildIdx ((j - 1) / 2) j := by
  unfold ChildIdx; omega

/-- The heap invariant on priorities. -/
def HeapProp (l : List Attack) : Prop :=
  ∀ i j, ChildIdx i j → j < l.length →
    (l.getD i default).priority ≤ (l.getD j default).priority

theorem getD_set_self (l : List Attack) {i : Nat} (h : i < l.length) (a : Attack) :
    (l.set i a).getD i default = a := by
  simp [List.getD, List.getElem?_set_self', h]

theorem getD_set_ne (l : List Attack) {i j : Nat} (h : i ≠ j) (a : Attack) :
    (l.set i a).getD j default = l.getD j default := by
  simp [List.getD, List.getElem?_set_ne h]

theorem getD_mem (l : List Attack) {n : Nat} (h : n < l.length) :
    l.getD n default ∈ l := by
  rw [List.getD_eq_getElem l default h]; exact List.getElem_mem h

/-- In a heap, the root is minimal. -/
theorem HeapProp.root_le {l : List Attack} (hp : HeapProp l) :
    ∀ i, i < l.length →
      (l.getD 0 default).priority ≤ (l.getD i default).priority := by
  intro i
  induction i using Nat.strong_induction_on with
  | _ i ih =>
    intro hi
    rcases Nat.eq_zero_or_pos i with h0 | h0
    · subst h0; exact le_refl _
    · have hpar : (i - 1) / 2 < i := by omega
      exact le_trans (ih _ hpar (lt_trans hpar hi)) (hp _ _ (childIdx_of_pos h0) hi)

/-- `_siftdown` restores the heap invariant: if all edges not pointing into
the hole `pos` already satisfy the invariant, `newitem` is below every child
of the hole, and (when the hole is not the root) the hole's parent is below
every child of the hole, the result is a heap. -/
theorem siftdownAux_heapProp (newitem : Attack) :
    ∀ pos heap, pos < heap.length →
      (∀ i j, ChildIdx i j → j < heap.length → j ≠ pos →
        (heap.getD i default).priority ≤ (heap.getD j default).priority) →
      (∀ j, ChildIdx pos j → j < heap.length →
        newitem.priority ≤ (heap.getD j default).priority) →
      (∀ j, 0 < pos → ChildIdx pos j → j < heap.length →
        (heap.getD ((pos - 1) / 2) default).priority ≤
          (heap.getD j default).priority) →
      HeapProp (siftdownAux 0 newitem heap pos) := by
  intro pos
  induction pos using Nat.strong_induction_on with
  | _ pos ih =>
    intro heap hlen ha hb hb'
    unfold siftdownAux
    split
    · -- 0 < pos
      rename_i hpos
      split
      · -- newitem strictly below parent: shift the parent down, recurse
        rename_i hlt
        have hpp : (pos - 1) / 2 < pos := by omega
        apply ih _ hpp
        · rw [List.length_set]; omega
        · -- edges avoiding the new hole
          intro i j hc hj hjne
          rw [List.length_set] at hj
          obtain ⟨hpar, hij⟩ := childIdx_parent hc
          by_cases hjpos : j = pos
          · rw [hjpos] at hpar ⊢
            rw [hpar, getD_set_ne heap (by omega) _, getD_set_self heap hlen]
          · rw [getD_set_ne heap (Ne.symm hjpos) _]
            by_cases hipos : i = pos
            · rw [hipos, getD_set_self heap hlen]
              rw [hipos] at hc
              exact hb' j hpos hc hj
            · rw [getD_set_ne heap (Ne.symm hipos) _]
              exact ha i j hc hj hjpos
        · -- newitem is below every child of the new hole
          intro j hc hj
          rw [List.length_set] at hj
          obtain ⟨hpar, hij⟩ := childIdx_parent hc
          by_cases hjpos : j = pos
          · rw [hjpos, getD_set_self heap hlen]
            exact le_of_lt hlt
          · rw [getD_set_ne heap (Ne.symm hjpos) _]
            refine le_trans (le_of_lt hlt) ?_
            exact ha _ j hc hj hjpos
        · -- the new hole's parent is below every child of the new hole
          intro j hppos hc hj
          rw [List.length_set] at hj
          obtain ⟨hpar, hij⟩ := childIdx_parent hc
          rw [getD_set_ne heap (by omega) _]
          by_cases hjpos : j = pos
          · rw [hjpos, getD_set_self heap hlen]
            exact ha _ _ (childIdx_of_pos hppos) (by omega) (by omega)
          · rw [getD_set_ne heap (Ne.symm hjpos) _]
            exact le_trans (ha _ _ (childIdx_of_pos hppos) (by omega) (by omega))
              (ha _ j hc hj hjpos)
      · -- place newitem at the hole
        rename_i hge
        intro i j hc hj
        rw [List.length_set] at hj
        obtain ⟨hpar, hij⟩ := childIdx_parent hc
        by_cases hjpos : j = pos
        · rw [hjpos] at hpar ⊢
          rw [hpar, getD_set_ne heap (by omega) _, getD_set_self heap hlen]
          exact Int.not_lt.mp (by simpa using hge)
        · rw [getD_set_ne heap (Ne.symm hjpos) _]
          by_cases hipos : i = pos
          · rw [hipos, getD_set_self heap hlen]
            rw [hipos] at hc
            exact hb j hc hj
          · rw [getD_set_ne heap (Ne.symm hipos) _]
            exact ha i j hc hj hjpos
    · -- pos = 0 (no parent): place newitem at the root
      rename_i hnpos
      have hpos0 : pos = 0 := by omega
      intro i j hc hj
      rw [List.length_set] at hj
      obtain ⟨hpar, hij⟩ := childIdx_parent hc
      have hjne : j ≠ pos := by omega
      rw [getD_set_ne heap (Ne.symm hjne) _]
      by_cases hipos : i = pos
      · rw [hipos, getD_set_self heap hlen]
        rw [hipos] at hc
        exact hb j hc hj
      · rw [getD_set_ne heap (Ne.symm hipos) _]
        exact ha i j hc hj hjne

theorem chooseChild_childIdx (endpos pos : Nat) (heap : List Attack) :
    ChildIdx pos (chooseChild endpos pos heap) := by
  unfold chooseChild ChildIdx
  split
  · exact Or.inr rfl
  · exact Or.inl rfl

/-- The chosen child is (weakly) the smaller of the two. -/
theorem chooseChild_le {endpos pos : Nat} {heap : List Attack}
    (h : 2 * pos + 1 < endpos) :
    ∀ j, ChildIdx pos j → j < endpos → j ≠ chooseChild endpos pos heap →
      (heap.getD (chooseChild endpos pos heap) default).priority ≤
        (heap.getD j default).priority := by
  intro j hc hj hne
  unfold chooseChild at hne ⊢
  split
  · rename_i hcond
    have : j = 2 * pos + 1 := by
      rcases hc with h1 | h1
      · exact h1
      · split at hne <;> omega
    subst this
    exact Int.not_lt.mp hcond.2
  · rename_i hcond
    have : j = 2 * pos + 2 := by
      rcases hc with h1 | h1
      · split at hne <;> omega
      · exact h1
    subst this
    rw [Classical.not_and_iff_or_not_not] at hcond
    rcases hcond with h1 | h1
    · omega
    · exact le_of_lt (Classical.not_not.mp h1)

/-- `_siftup` followed by its final `_siftdown` restores the heap invariant
when started at the root hole of an otherwise valid heap. -/
theorem siftupAux_heapProp (newitem : Attack) (endpos : Nat) :
    ∀ k pos heap, endpos - pos = k → heap.length = endpos → pos < endpos →
      (∀ i j, ChildIdx i j → j < endpos → i ≠ pos → j ≠ pos →
        (heap.getD i default).priority ≤ (heap.getD j default).priority) →
      (∀ j, 0 < pos → ChildIdx pos j → j < endpos →
        (heap.getD ((pos - 1) / 2) default).priority ≤
          (heap.getD j default).priority) →
      HeapProp (siftdownAux 0 newitem (siftupAux endpos newitem heap pos).1
        (siftupAux endpos newitem heap pos).2) := by
  intro k
  induction k using Nat.strong_induction_on with
  | _ k ih
  =>
    intro pos heap hk hlen hpos hA hC
    unfold siftupAux
    split
    · -- the hole still has a child: move the smaller child up
      rename_i hchild
      have hcgt : pos < chooseChild endpos pos heap := chooseChild_gt endpos pos heap
      have hclt : chooseChild endpos pos heap < endpos := chooseChild_lt heap hchild
      have hcchild : ChildIdx pos (chooseChild endpos pos heap) :=
        chooseChild_childIdx endpos pos heap
      apply ih (endpos - chooseChild endpos pos heap) (by omega) _ _ rfl
      · rw [List.length_set]; exact hlen
      · exact hclt
      · -- edges avoiding the new hole
        intro i j hc hj hine hjne
        obtain ⟨hpar, hij⟩ := childIdx_parent hc
        by_cases hjpos : j = pos
        · rw [hjpos] at hpar hij ⊢
          have hppos : 0 < pos := by omega
          rw [hpar, getD_set_ne heap (by omega) _, getD_set_self heap (by omega)]
          exact hC _ hppos hcchild hclt
        · rw [getD_set_ne heap (Ne.symm hjpos) _]
          by_cases hipos : i = pos
          · rw [hipos, getD_set_self heap (by omega)]
            rw [hipos] at hc
            exact chooseChild_le hchild j hc hj hjne
          · rw [getD_set_ne heap (Ne.symm hipos) _]
            exact hA i j hc hj hipos hjpos
      · -- the new hole's parent (= old hole) is below the new hole's children
        intro j hcpos hc hj
        obtain ⟨hpar, hij⟩ := childIdx_parent hc
        obtain ⟨hparc, hposc⟩ := childIdx_parent hcchild
        rw [← hparc, getD_set_self heap (by omega),
          getD_set_ne heap (show pos ≠ j by omega) _]
        exact hA _ j hc hj (by omega) (by omega)
    · -- the hole is a leaf: place newitem there, then `_siftdown`
      rename_i hleaf
      apply siftdownAux_heapProp
      · rw [List.length_set]; omega
      · intro i j hc hj hjne
        rw [List.length_set] at hj
        obtain ⟨hpar, hij⟩ := childIdx_parent hc
        have hine : i ≠ pos := by
          rcases hc with h1 | h1 <;> omega
        rw [getD_set_ne heap (Ne.symm hjne) _, getD_set_ne heap (Ne.symm hine) _]
        exact hA i j hc (by omega) hine hjne
      · intro j hc hj
        rw [List.length_set] at hj
        rcases hc with h1 | h1 <;> omega
      · intro j _ hc hj
        rw [List.length_set] at hj
        rcases hc with h1 | h1 <;> omega

/-- `getD` on `dropLast` agrees with the original list. -/
theorem getD_dropLast (l : List Attack) {i : Nat} (h : i < l.length - 1) :
    l.dropLast.getD i default = l.getD i default := by
  have h1 : i < l.dropLast.length := by rw [List.length_dropLast]; omega
  have h2 : i < l.length := by omega
  rw [List.getD_eq_getElem _ default h1, List.getD_eq_getElem _ default h2]
  exact List.getElem_dropLast l i h1

/-- `heappush` preserves the heap invariant. -/
theorem heappush_heapProp {heap : List Attack} (hp : HeapProp heap) (item : Attack) :
    HeapProp (heappush heap item) := by
  unfold heappush
  apply siftdownAux_heapProp
  · rw [List.length_append]; simp
  · intro i j hc hj hjne
    rw [List.length_append] at hj
    obtain ⟨hpar, hij⟩ := childIdx_parent hc
    have hjlt : j < heap.length := by simp at hj; omega
    have hilt : i < heap.length := by omega
    have hgi : (heap ++ [item]).getD i default = heap.getD i default := by
      simp [List.getD, List.getElem?_append, hilt]
    have hgj : (heap ++ [item]).getD j default = heap.getD j default := by
      simp [List.getD, List.getElem?_append, hjlt]
    rw [hgi, hgj]
    exact hp i j hc hjlt
  · intro j hc hj
    rw [List.length_append] at hj
    rcases hc with h1 | h1 <;> (simp at hj; omega)
  · intro j _ hc hj
    rw [List.length_append] at hj
    rcases hc with h1 | h1 <;> (simp at hj; omega)

/-- `heappop` preserves the heap invariant. -/
theorem heappop_heapProp {heap rest : List Attack} {a : Attack}
    (hp : HeapProp heap) (h : heappop heap = some (a, rest)) : HeapProp rest := by
  unfold heappop at h
  by_cases hemp : heap.isEmpty
  · rw [if_pos hemp] at h; cases h
  · rw [if_neg hemp] at h
    by_cases hrest : heap.dropLast.isEmpty
    · rw [if_pos hrest] at h
      cases h
      intro i j hc hj
      simp at hj
    · rw [if_neg hrest] at h
      cases h
      have hrlen : 0 < heap.dropLast.length := by
        cases hdl : heap.dropLast with
        | nil => rw [hdl] at hrest; simp [List.isEmpty] at hrest
        | cons x xs => simp
      have hwlen : (heap.dropLast.set 0 (heap.getLastD default)).length =
          heap.dropLast.length := List.length_set _ _ _
      rw [hwlen]
      apply siftupAux_heapProp _ _ _ _ _ rfl hwlen hrlen
      · intro i j hc hj hine hjne
        obtain ⟨hpar, hij⟩ := childIdx_parent hc
        rw [getD_set_ne _ (Ne.symm hjne) _, getD_set_ne _ (Ne.symm hine) _]
        have hj1 : j < heap.length - 1 := by
          rw [List.length_dropLast] at hj; omega
        rw [getD_dropLast heap hj1, getD_dropLast heap (by omega)]
        exact hp i j hc (by omega)
      · intro j hpos0 _ _
        omega

/-- What `heappop` returns: the root of the heap. -/
theorem heappop_root {heap rest : List Attack} {a : Attack}
    (h : heappop heap = some (a, rest)) : a = heap.getD 0 default := by
  unfold heappop at h
  by_cases hemp : heap.isEmpty
  · rw [if_pos hemp] at h; cases h
  · rw [if_neg hemp] at h
    by_cases hrest : heap.dropLast.isEmpty
    · rw [if_pos hrest] at h
      cases h
      cases heap with
      | nil => simp [List.isEmpty] at hemp
      | cons x xs =>
        cases xs with
        | nil => simp [List.getLastD, List.getD]
        | cons y ys => simp [List.dropLast, List.isEmpty] at hrest
    · rw [if_neg hrest] at h
      cases h
      have hrlen : 0 < heap.dropLast.length := by
        cases hdl : heap.dropLast with
        | nil => rw [hdl] at hrest; simp [List.isEmpty] at hrest
        | cons x xs => simp
      rw [getD_dropLast heap (by rw [List.length_dropLast] at hrlen; omega)]

/-! ### What the queue returns: a permutation of the pushes, sorted by
priority -/

theorem count_set (l : List Attack) {i : Nat} (h : i < l.length) (a x : Attack) :
    (l.set i a).count x + (if l.getD i default = x then 1 else 0) =
      l.count x + (if a = x then 1 else 0) := by
  have hset : l.set i a = l.take i ++ a :: l.drop (i + 1) := by
    rw [List.set_eq_take_append_cons_drop, if_pos h]
  have hl : l.count x =
      (l.take i ++ l.getD i default :: l.drop (i + 1)).count x := by
    conv_lhs =>
      rw [show l = l.take i ++ l.getD i default :: l.drop (i + 1) by
        rw [List.getD_eq_getElem l default h, List.getElem_cons_drop l i h,
          List.take_append_drop]]
  rw [hset, hl]
  simp only [List.count_append, List.count_cons]
  by_cases h1 : l.getD i default = x <;> by_cases h2 : a = x <;>
    simp [h1, h2] <;> omega

/-- Exchanging values between two positions is a permutation. -/
theorem set_set_perm (l : List Attack) {i j : Nat} (hij : i ≠ j)
    (hi : i < l.length) (hj : j < l.length) (a : Attack) :
    List.Perm ((l.set i (l.getD j default)).set j a) (l.set i a) := by
  apply List.perm_iff_count.mpr
  intro x
  have h1 := count_set (l.set i (l.getD j default))
    (by rw [List.length_set]; exact hj) a x
  rw [getD_set_ne l hij _] at h1
  have h2 := count_set l hi (l.getD j default) x
  have h3 := count_set l hi a x
  omega

theorem siftdownAux_perm (newitem : Attack) :
    ∀ pos heap, pos < heap.length →
      List.Perm (siftdownAux 0 newitem heap pos) (heap.set pos newitem) := by
  intro pos
  induction pos using Nat.strong_induction_on with
  | _ pos ih =>
    intro heap hlen
    unfold siftdownAux
    split
    · rename_i hpos
      split
      · rename_i hlt
        have hpp : (pos - 1) / 2 < pos := by omega
        have h1 := ih _ hpp (heap.set pos (heap.getD ((pos - 1) / 2) default))
          (by rw [List.length_set]; omega)
        refine h1.trans ?_
        exact set_set_perm heap (by omega) hlen (by omega) newitem
      · exact List.Perm.refl _
    · exact List.Perm.refl _

theorem siftupAux_perm (newitem : Attack) (endpos : Nat) :
    ∀ k pos heap, endpos - pos = k → heap.length = endpos → pos < endpos →
      List.Perm (siftdownAux 0 newitem (siftupAux endpos newitem heap pos).1
          (siftupAux endpos newitem heap pos).2)
        (heap.set pos newitem) := by
  intro k
  induction k using Nat.strong_induction_on with
  | _ k ih =>
    intro pos heap hk hlen hpos
    unfold siftupAux
    split
    · rename_i hchild
      have hcgt := chooseChild_gt endpos pos heap
      have hclt := chooseChild_lt heap hchild
      have h1 := ih (endpos - chooseChild endpos pos heap) (by omega) _
        (heap.set pos (heap.getD (chooseChild endpos pos heap) default))
        rfl (by rw [List.length_set]; exact hlen) hclt
      refine h1.trans ?_
      exact set_set_perm heap (by omega) (by omega) (by omega) newitem
    · have h1 := siftdownAux_perm newitem pos (heap.set pos newitem)
        (by rw [List.length_set]; omega)
      rwa [List.set_set] at h1

theorem heappush_perm (heap : List Attack) (item : Attack) :
    List.Perm (heappush heap item) (item :: heap) := by
  unfold heappush
  have h1 := siftdownAux_perm item heap.length (heap ++ [item]) (by simp)
  have h2 : (heap ++ [item]).set heap.length item = heap ++ [item] := by
    rw [List.set_eq_take_append_cons_drop, if_pos (by simp), List.take_left]
    have hd : (heap ++ [item]).drop (heap.length + 1) = [] :=
      List.drop_eq_nil_of_le (by simp)
    rw [hd]
  rw [h2] at h1
  exact h1.trans (List.perm_append_singleton item heap)

theorem dropLast_append_getLastD (l : List Attack) (h : l ≠ []) :
    l.dropLast ++ [l.getLastD default] = l := by
  have h2 : l.getLastD default = l.getLast h := by
    rw [List.getLastD_eq_getLast?, List.getLast?_eq_getLast _ h]
    rfl
  rw [h2, List.dropLast_append_getLast]

theorem heappop_perm {heap rest : List Attack} {a : Attack}
    (h : heappop heap = some (a, rest)) : List.Perm (a :: rest) heap := by
  unfold heappop at h
  by_cases hemp : heap.isEmpty
  · rw [if_pos hemp] at h; cases h
  · rw [if_neg hemp] at h
    by_cases hrest : heap.dropLast.isEmpty
    · rw [if_pos hrest] at h
      cases h
      cases heap with
      | nil => simp [List.isEmpty] at hemp
      | cons x xs =>
        cases xs with
        | nil => simp [List.getLastD]
        | cons y ys => simp [List.dropLast, List.isEmpty] at hrest
    · rw [if_neg hrest] at h
      cases h
      have hne : heap ≠ [] := by
        cases heap with
        | nil => simp [List.isEmpty] at hemp
        | cons x xs => simp
      have hsplit := dropLast_append_getLastD heap hne
      cases hdl : heap.dropLast with
      | nil => rw [hdl] at hrest; simp [List.isEmpty] at hrest
      | cons r0 rtail =>
        have hrlen : 0 < heap.dropLast.length := by rw [hdl]; simp
        have hperm := siftupAux_perm (heap.getLastD default)
          (((r0 :: rtail).set 0 (heap.getLastD default)).length) _ 0
          ((r0 :: rtail).set 0 (heap.getLastD default)) rfl rfl (by simp)
        rw [List.set_set] at hperm
        refine List.Perm.trans (hperm.cons _) ?_
        rw [hdl] at hsplit
        have hget : (r0 :: rtail).getD 0 default = r0 := rfl
        have hset : (r0 :: rtail).set 0 (heap.getLastD default) =
            heap.getLastD default :: rtail := rfl
        rw [hget, hset]
        conv_rhs => rw [← hsplit]
        rw [List.cons_append]
        exact ((List.perm_append_singleton _ rtail).symm).cons r0

theorem heappop_eq_none {heap : List Attack} (h : heappop heap = none) :
    heap = [] := by
  unfold heappop at h
  by_cases hemp : heap.isEmpty
  · exact List.isEmpty_iff.mp hemp
  · rw [if_neg hemp] at h
    by_cases hrest : heap.dropLast.isEmpty
    · rw [if_pos hrest] at h; cases h
    · rw [if_neg hrest] at h; cases h

theorem popAll_perm (heap : List Attack) : List.Perm (popAll heap) heap := by
  have H : ∀ n (heap : List Attack), heap.length ≤ n →
      List.Perm (popAll heap) heap := by
    intro n
    induction n using Nat.strong_induction_on with
    | _ n ih =>
      intro heap hlen
      rw [popAll]
      split
      · rename_i hpop
        rw [heappop_eq_none hpop]
      · rename_i a rest hpop
        have hlt := heappop_length_lt hpop
        exact ((ih rest.length (by omega) rest (le_refl _)).cons a).trans
          (heappop_perm hpop)
  exact H heap.length heap (le_refl _)

/-- Everything left in the heap after a pop is at least the popped root. -/
theorem heappop_min {heap rest : List Attack} {a : Attack}
    (hp : HeapProp heap) (h : heappop heap = some (a, rest)) :
    ∀ x ∈ rest, a.priority ≤ x.priority := by
  intro x hx
  have hroot := heappop_root h
  have hxheap : x ∈ heap := (heappop_perm h).mem_iff.mp (List.mem_cons_of_mem a hx)
  obtain ⟨i, hi, hix⟩ := List.mem_iff_getElem.mp hxheap
  have := hp.root_le i hi
  rw [List.getD_eq_getElem heap default hi, hix] at this
  rw [hroot]
  exact this

theorem popAll_sorted (heap : List Attack) (hp : HeapProp heap) :
    List.Sorted (fun a b : Attack => a.priority ≤ b.priority) (popAll heap) := by
  have H : ∀ n (heap : List Attack), heap.length ≤ n → HeapProp heap →
      List.Sorted (fun a b : Attack => a.priority ≤ b.priority)
        (popAll heap) := by
    intro n
    induction n using Nat.strong_induction_on with
    | _ n ih =>
      intro heap hlen hp
      rw [popAll]
      split
      · exact List.sorted_nil
      · rename_i a rest hpop
        have hlt := heappop_length_lt hpop
        rw [List.sorted_cons]
        constructor
        · intro b hb
          have hbrest : b ∈ rest := (popAll_perm rest).mem_iff.mp hb
          exact heappop_min hp hpop b hbrest
        · exact ih rest.length (by omega) rest (le_refl _)
            (heappop_heapProp hp hpop)
  exact H heap.length heap (le_refl _) hp

theorem foldl_heappush_heapProp (pushes : List Attack) :
    ∀ acc, HeapProp acc → HeapProp (pushes.foldl heappush acc) := by
  induction pushes with
  | nil => intro acc h; exact h
  | cons p ps ih =>
    intro acc h
    exact ih _ (heappush_heapProp h p)

theorem foldl_heappush_perm (pushes : List Attack) :
    ∀ acc, List.Perm (pushes.foldl heappush acc) (acc ++ pushes) := by
  induction pushes with
  | nil => intro acc; simp
  | cons p ps ih =>
    intro acc
    refine (ih (heappush acc p)).trans ?_
    have h1 : List.Perm (heappush acc p ++ ps) ((p :: acc) ++ ps) :=
      (heappush_perm acc p).append_right ps
    refine h1.trans ?_
    rw [List.cons_append]
    exact List.perm_middle.symm

/-! ### Claim C4 -/

/-- Four equal-priority attacks, used to exhibit the unstable tie order. -/
def tieA : Attack := { priority := 1, name := "A", attack_type := "dictionary" }

/-- See `tieA`. -/
def tieB : Attack := { priority := 1, name := "B", attack_type := "dictionary" }

/-- See `tieA`. -/
def tieC : Attack := { priority := 1, name := "C", attack_type := "dictionary" }

/-- See `tieA`. -/
def tieD : Attack := { priority := 1, name := "D", attack_type := "dictionary" }

/-- C4 counterexample.  The claim's stable tie-break does not exist in the
code: `Attack` carries no insertion-sequence counter, and `heapq` is not
stable.  Pushing four attacks of equal priority 1 in the order A, B, C, D
and popping returns A, C, B, D — the third-pushed attack comes back second.
-/
theorem C4_counterexample :
    (tieA.priority = 1 ∧ tieB.priority = 1 ∧ tieC.priority = 1 ∧
      tieD.priority = 1) ∧
    popAll ([tieA, tieB, tieC, tieD].foldl add_attack []) =
      [tieA, tieC, tieB, tieD] ∧
    [tieA, tieC, tieB, tieD] ≠ [tieA, tieB, tieC, tieD] := by
  refine ⟨⟨rfl, rfl, rfl, rfl⟩, ?_, by decide⟩
  simp [popAll, heappop, add_attack, heappush, siftupAux, siftdownAux,
    chooseChild, tieA, tieB, tieC, tieD, List.set, List.getD, default]

/-- C4 (amended).  The attack queue is a `heapq` min-heap ordered by
priority alone: for every sequence of `add_attack` calls, repeated
`get_next_attack` calls return exactly the pushed attacks, in non-decreasing
priority; `get_next_attack` on an empty queue returns `none`.  Among attacks
of equal priority the return order is determined by the heap's array
mechanics, **not** by insertion order (there is no insertion-sequence
counter; see `C4_counterexample`). -/
theorem C4_attack_queue_sorted (pushes : List Attack) :
    List.Perm (popAll (pushes.foldl add_attack [])) pushes ∧
    List.Sorted (fun a b : Attack => a.priority ≤ b.priority)
      (popAll (pushes.foldl add_attack [])) ∧
    get_next_attack [] = none := by
  refine ⟨?_, ?_, rfl⟩
  · exact (popAll_perm _).trans (by simpa using foldl_heappush_perm pushes [])
  · exact popAll_sorted _ (foldl_heappush_heapProp pushes [] (by
      intro i j hc hj; simp at hj))

/-! ## `HashManager` (src/core/hash_manager.py)

The manager's mutable state.  File contents are inputs: the hash file is its
list of text lines (its on-disk byte size is the sum of line lengths plus
one newline per line), the potfile is `none` when absent and its line list
otherwise.  `crack_times` and `recent_cracks` (wall-clock data) and the
`new_hashes_queue` signal are elided.

Two crucial details of the source.  First, `HashManager` never assigns
`self.logger`, but `_load_initial_state` line 59 (`self.logger.info(...)`,
reached at the end of every streaming-mode load over an **existing** file)
reads it, raising `AttributeError`, and the `except` handler's own
`self.logger.error(...)` (line 62) re-raises it out of the constructor
before the traditional fallback can run.  Consequently the only streaming
managers that finish construction are those whose hash file is missing.
Second, the streaming branch of `get_remaining_hashes_file` re-opens the
source hash file (`stream_hashes`, streaming_hash_processor.py line 58,
reached from hash_manager.py line 166): with the file missing — the only
reachable case — that `open` raises `FileNotFoundError` before line 172's
`self.logger.debug` can be reached; with a file present at call time the
loop completes and line 172 raises `AttributeError`.  Either way the
`except` handler deletes the temp file and re-raises, so the streaming
branch never returns a file. -/

/-- Exceptions the embedded `HashManager` code can raise. -/
inductive PyError where
  | attributeError
  | fileNotFoundError
deriving DecidableEq, Repr

instance {ε α : Type} [DecidableEq ε] [DecidableEq α] :
    DecidableEq (Except ε α) := fun a b =>
  match a, b with
  | .ok x, .ok y =>
    if h : x = y then isTrue (by rw [h])
    else isFalse (by intro hc; cases hc; exact h rfl)
  | .error x, .error y =>
    if h : x = y then isTrue (by rw [h])
    else isFalse (by intro hc; cases hc; exact h rfl)
  | .ok _, .error _ => isFalse (by intro hc; cases hc)
  | .error _, .ok _ => isFalse (by intro hc; cases hc)

/-- A materialized remaining-hashes temp file: its set of lines and its
permission bits. -/
structure TempFile where
  lines : Finset String
  mode : Nat
deriving DecidableEq

/-- The fields of a `HashManager` (hash_manager.py lines 13–32). -/
structure HashManagerState where
  hashFileLines : List String
  streaming_mode : Bool
  hasStreamProcessor : Bool
  original_hashes : Finset String
  cracked_hashes : List (String × String)
  remaining_hashes : Finset String
  attack_effectiveness : List (String × Nat)
  total_hash_count : Nat
  tempFiles : List TempFile
deriving DecidableEq

/-- The keys of `cracked_hashes`, as a set. -/
def crackedKeys (s : HashManagerState) : Finset String :=
  (s.cracked_hashes.map Prod.fst).toFinset

/-- On-disk byte size of a text file given as lines (each line plus its
newline), for the 50 MB streaming threshold. -/
def fileSizeBytes (lines : List String) : Nat :=
  (lines.map (fun l => l.length + 1)).sum

/-- `_load_hashes_traditional` (lines 83–86):
`{line.strip() for line in f if line.strip()}`. -/
def stripLineSet (lines : List String) : Finset String :=
  ((lines.map (fun l => String.mk (pystrip l.data))).filter
    (fun l => l ≠ "")).toFinset

/-- Potfile-line parsing shared by `_load_initial_state` (lines 72–77) and
`update_progress` (lines 94–98): lines containing a colon are stripped and
split at the first colon; the rest are skipped.  (The code tests `':' in
line` before stripping; stripping removes only whitespace, so the test is
equivalent on the stripped line.) -/
def parsePotLine (line : String) : Option (String × String) :=
  if ':' ∈ line.data then
    let s := pystrip line.data
    some (String.mk (s.takeWhile (fun c => c ≠ ':')),
      String.mk ((s.dropWhile (fun c => c ≠ ':')).tail))
  else none

/-- Load a potfile into the `cracked_hashes` dict
(`self.cracked_hashes[hash_val] = plaintext`). -/
def loadPotfile (potLines : List String) : List (String × String) :=
  potLines.foldl
    (fun d line =>
      match parsePotLine line with
      | some e => dictSet d e.1 e.2
      | none => d) []

/-- The hash keys a potfile mentions. -/
def potKeys (potLines : List String) : List String :=
  potLines.filterMap (fun l => (parsePotLine l).map Prod.fst)

/-- `HashManager.__init__` + `_load_initial_state` (lines 13–81), as a
function of whether the hash file exists, its lines, the potfile lines
(`none` when the potfile does not exist) and the `streaming_mode`
parameter.  Every streaming-mode load (explicit flag, or file over 50 MB)
raises `AttributeError` at the missing `self.logger`. -/
def loadInitialState (hashFileExists : Bool) (hashFileLines : List String)
    (potLines : Option (List String)) (streaming_mode : Bool) :
    Except PyError HashManagerState :=
  if hashFileExists ∧
      (streaming_mode ∨ fileSizeBytes hashFileLines > 50 * 1024 * 1024) then
    Except.error PyError.attributeError
  else
    let original := if hashFileExists then stripLineSet hashFileLines else ∅
    let cracked :=
      match potLines with
      | some pl => loadPotfile pl
      | none => []
    Except.ok
      { hashFileLines := hashFileLines
        streaming_mode := streaming_mode
        hasStreamProcessor := streaming_mode
        original_hashes := original
        cracked_hashes := cracked
        remaining_hashes := original \ (cracked.map Prod.fst).toFinset
        attack_effectiveness := []
        total_hash_count := 0
        tempFiles := [] }

/-- The dict returned by `update_progress` (lines 113–118). -/
structure ProgressResult where
  newly_cracked : List (String × String)
  total_cracked : Nat
  remaining : Nat
  all_cracked : Bool
deriving DecidableEq

/-- `self.attack_effectiveness[k] = self.attack_effectiveness.get(k, 0) + 1`. -/
def dictBump (d : List (String × Nat)) (k : String) : List (String × Nat) :=
  dictSet d k (((d.lookup k).getD 0) + 1)

/-- One potfile line of `update_progress`'s loop (lines 94–107): a parsed
entry whose hash is not yet cracked is appended to `cracked_hashes` and to
`newly_cracked`, and credited to the attack. -/
def updateStep (an : Option String)
    (acc : List (String × String) × List (String × String) × List (String × Nat))
    (line : String) :
    List (String × String) × List (String × String) × List (String × Nat) :=
  match parsePotLine line with
  | none => acc
  | some e =>
    if dictContains acc.1 e.1 then acc
    else
      (acc.1 ++ [e], acc.2.1 ++ [e],
        match an with
        | some name => dictBump acc.2.2 name
        | none => acc.2.2)

/-- `HashManager.update_progress` (lines 88–118). -/
def update_progress (s : HashManagerState) (potLines : Option (List String))
    (attack_name : Option String) : HashManagerState × ProgressResult :=
  let res :=
    match potLines with
    | some pl => pl.foldl (updateStep attack_name)
        (s.cracked_hashes, [], s.attack_effectiveness)
    | none => (s.cracked_hashes, [], s.attack_effectiveness)
  let remaining := s.original_hashes \ (res.1.map Prod.fst).toFinset
  ({ s with
      cracked_hashes := res.1
      attack_effectiveness := res.2.2
      remaining_hashes := remaining },
    { newly_cracked := res.2.1
      total_cracked := res.1.length
      remaining := remaining.card
      all_cracked := remaining.card = 0 })

/-- The dict returned by `get_statistics` (lines 120–133);
`attack_effectiveness` and `recent_cracks` elided. -/
structure Statistics where
  total_hashes : Nat
  cracked : Nat
  remaining : Nat
  success_rate : Rat
deriving DecidableEq

/-- `HashManager.get_statistics`. -/
def get_statistics (s : HashManagerState) : Statistics :=
  { total_hashes := s.original_hashes.card
    cracked := s.cracked_hashes.length
    remaining := s.remaining_hashes.card
    success_rate :=
      if s.original_hashes.card > 0 then
        mkRat (s.cracked_hashes.length * 100) s.original_hashes.card
      else 0 }

/-- `HashManager.should_continue` (lines 146–148). -/
def should_continue (s : HashManagerState) : Bool :=
  s.remaining_hashes.card > 0

/-- One hash of `add_hashes_dynamically`'s loop (lines 290–298): the
stripped hash is added to `original_hashes` when new, and also to
`remaining_hashes` (counting it) when not already cracked. -/
def addStep (acc : HashManagerState × Nat) (hash_val : String) :
    HashManagerState × Nat :=
  if pystripS hash_val ≠ "" ∧ pystripS hash_val ∉ acc.1.original_hashes then
    if ¬ dictContains acc.1.cracked_hashes (pystripS hash_val) then
      ({ acc.1 with
          original_hashes := insert (pystripS hash_val) acc.1.original_hashes
          remaining_hashes := insert (pystripS hash_val) acc.1.remaining_hashes },
        acc.2 + 1)
    else
      ({ acc.1 with
          original_hashes := insert (pystripS hash_val) acc.1.original_hashes },
        acc.2)
  else acc

/-- `HashManager.add_hashes_dynamically` (lines 284–304); the
`new_hashes_queue` signal is elided. -/
def add_hashes_dynamically (s : HashManagerState) (new_hashes : List String) :
    HashManagerState × Nat :=
  new_hashes.foldl addStep (s, 0)

/-- `HashManager.get_remaining_hashes_file` (lines 150–195), as a function
of the manager state and of the on-disk hash file **at call time**
(`none` when it is missing).  In-memory mode ignores the disk and writes
the `remaining_hashes` set to a fresh 0600 temp file, tracking it.  The
streaming branch re-streams the source file (line 166): a missing file
makes `stream_hashes`' `open` raise `FileNotFoundError`; with a file
present the filter loop completes and line 172's `self.logger.debug`
raises `AttributeError` (`self.logger` is never assigned).  In both cases
the handler unlinks the temp file and re-raises, so no file is produced
and the state is unchanged. -/
def get_remaining_hashes_file (s : HashManagerState)
    (hashFile : Option (List String)) :
    Except PyError (TempFile × HashManagerState) :=
  if s.streaming_mode ∧ s.hasStreamProcessor then
    match hashFile with
    | none => Except.error PyError.fileNotFoundError
    | some _ => Except.error PyError.attributeError
  else
    let f : TempFile := { lines := s.remaining_hashes, mode := 0o600 }
    Except.ok (f, { s with tempFiles := s.tempFiles ++ [f] })

/-- The `HashManager` states reachable through the public API. -/
inductive Reachable : HashManagerState → Prop where
  | load {ex : Bool} {lines : List String} {pot : Option (List String)}
      {sm : Bool} {s : HashManagerState} :
      loadInitialState ex lines pot sm = Except.ok s → Reachable s
  | update {s : HashManagerState} {pot : Option (List String)}
      {an : Option String} :
      Reachable s → Reachable (update_progress s pot an).1
  | add {s : HashManagerState} {hs : List String} :
      Reachable s → Reachable (add_hashes_dynamically s hs).1

theorem dictContains_iff {β : Type} (d : List (String × β)) (k : String) :
    dictContains d k = true ↔ k ∈ d.map Prod.fst := by
  unfold dictContains
  induction d with
  | nil => simp [List.lookup]
  | cons e t ih =>
    simp only [List.lookup, List.map_cons, List.mem_cons]
    by_cases he : k = e.1
    · simp [he]
    · have hbe : (k == e.1) = false := beq_eq_false_iff_ne.mpr he
      simp [hbe, ih, he]

theorem dictSet_keys_mem {β : Type} {d : List (String × β)} {k : String} {v : β}
    {x : String} (h : x ∈ (dictSet d k v).map Prod.fst) :
    x ∈ d.map Prod.fst ∨ x = k := by
  induction d with
  | nil => simpa [dictSet] using h
  | cons e t ih =>
    by_cases he : e.1 = k
    · simp only [dictSet, if_pos he, List.map_cons] at h
      rcases List.mem_cons.mp h with h1 | h1
      · exact Or.inr h1
      · exact Or.inl (by rw [List.map_cons]; exact List.mem_cons_of_mem _ h1)
    · simp only [dictSet, if_neg he, List.map_cons] at h
      rcases List.mem_cons.mp h with h1 | h1
      · exact Or.inl (by rw [List.map_cons, h1]; exact List.mem_cons_self _ _)
      · rcases ih h1 with h2 | h2
        · exact Or.inl (by rw [List.map_cons]; exact List.mem_cons_of_mem _ h2)
        · exact Or.inr h2

theorem dictSet_keys_nodup {β : Type} {d : List (String × β)} (k : String) (v : β)
    (h : (d.map Prod.fst).Nodup) : ((dictSet d k v).map Prod.fst).Nodup := by
  induction d with
  | nil => simp [dictSet]
  | cons e t ih =>
    rw [List.map_cons, List.nodup_cons] at h
    by_cases he : e.1 = k
    · simp only [dictSet, if_pos he, List.map_cons, List.nodup_cons]
      exact ⟨by rw [← he]; exact h.1, h.2⟩
    · simp only [dictSet, if_neg he, List.map_cons, List.nodup_cons]
      refine ⟨?_, ih h.2⟩
      intro hmem
      rcases dictSet_keys_mem hmem with h2 | h2
      · exact h.1 h2
      · exact he h2

theorem potKeys_nil : potKeys [] = [] := rfl

theorem potKeys_cons_some {line : String} {e : String × String} (pl : List String)
    (h : parsePotLine line = some e) :
    potKeys (line :: pl) = e.1 :: potKeys pl := by
  unfold potKeys
  rw [List.filterMap_cons, h]
  rfl

theorem potKeys_cons_none {line : String} (pl : List String)
    (h : parsePotLine line = none) :
    potKeys (line :: pl) = potKeys pl := by
  unfold potKeys
  rw [List.filterMap_cons, h]
  rfl

/-- Keys and key-uniqueness of the folded potfile dict, relative to an
arbitrary accumulator. -/
theorem loadPotfile_fold (pl : List String) :
    ∀ d : List (String × String),
      (∀ x, x ∈ ((pl.foldl
          (fun d line =>
            match parsePotLine line with
            | some e => dictSet d e.1 e.2
            | none => d) d).map Prod.fst) →
        x ∈ d.map Prod.fst ∨ x ∈ potKeys pl) ∧
      ((d.map Prod.fst).Nodup →
        ((pl.foldl
          (fun d line =>
            match parsePotLine line with
            | some e => dictSet d e.1 e.2
            | none => d) d).map Prod.fst).Nodup) := by
  induction pl with
  | nil => intro d; exact ⟨fun x hx => Or.inl hx, fun h => h⟩
  | cons line pl ih =>
    intro d
    cases hparse : parsePotLine line with
    | none =>
      rw [potKeys_cons_none pl hparse]
      constructor
      · intro x hx
        simp only [List.foldl_cons, hparse] at hx
        exact (ih d).1 x hx
      · intro hnd
        simp only [List.foldl_cons, hparse]
        exact (ih d).2 hnd
    | some e =>
      rw [potKeys_cons_some pl hparse]
      constructor
      · intro x hx
        simp only [List.foldl_cons, hparse] at hx
        rcases (ih (dictSet d e.1 e.2)).1 x hx with h | h
        · rcases dictSet_keys_mem h with h2 | h2
          · exact Or.inl h2
          · exact Or.inr (by rw [h2]; exact List.mem_cons_self _ _)
        · exact Or.inr (List.mem_cons_of_mem _ h)
      · intro hnd
        simp only [List.foldl_cons, hparse]
        exact (ih (dictSet d e.1 e.2)).2 (dictSet_keys_nodup e.1 e.2 hnd)

theorem loadPotfile_keys {pl : List String} {x : String}
    (h : x ∈ (loadPotfile pl).map Prod.fst) : x ∈ potKeys pl := by
  rcases (loadPotfile_fold pl []).1 x h with h2 | h2
  · simp at h2
  · exact h2

theorem loadPotfile_nodup (pl : List String) :
    ((loadPotfile pl).map Prod.fst).Nodup :=
  (loadPotfile_fold pl []).2 (by simp)

/-- Keys and key-uniqueness through `update_progress`'s potfile loop. -/
theorem updateFold (an : Option String) (pl : List String) :
    ∀ acc : List (String × String) × List (String × String) × List (String × Nat),
      (∀ x, x ∈ ((pl.foldl (updateStep an) acc).1.map Prod.fst) →
        x ∈ acc.1.map Prod.fst ∨ x ∈ potKeys pl) ∧
      ((acc.1.map Prod.fst).Nodup →
        ((pl.foldl (updateStep an) acc).1.map Prod.fst).Nodup) := by
  induction pl with
  | nil => intro acc; exact ⟨fun x hx => Or.inl hx, fun h => h⟩
  | cons line pl ih =>
    intro acc
    have hstep : ∀ x, x ∈ (updateStep an acc line).1.map Prod.fst →
        x ∈ acc.1.map Prod.fst ∨ x ∈ potKeys (line :: pl) := by
      intro x hx
      unfold updateStep at hx
      cases hparse : parsePotLine line with
      | none => rw [hparse] at hx; exact Or.inl hx
      | some e =>
        rw [hparse] at hx
        dsimp only at hx
        split at hx
        · exact Or.inl hx
        · dsimp only at hx
          rw [List.map_append] at hx
          rcases List.mem_append.mp hx with h | h
          · exact Or.inl h
          · rw [List.map_cons, List.map_nil] at h
            rcases List.mem_cons.mp h with h1 | h1
            · refine Or.inr ?_
              rw [potKeys_cons_some pl hparse, h1]
              exact List.mem_cons_self _ _
            · cases h1
    have hstepnd : (acc.1.map Prod.fst).Nodup →
        ((updateStep an acc line).1.map Prod.fst).Nodup := by
      intro hnd
      unfold updateStep
      cases hparse : parsePotLine line with
      | none => exact hnd
      | some e =>
        dsimp only
        split
        · exact hnd
        · rename_i hcont
          dsimp only
          rw [List.map_append, List.map_cons, List.map_nil, List.nodup_append]
          refine ⟨hnd, by simp, ?_⟩
          intro x hx
          simp only [List.mem_cons, List.not_mem_nil, or_false]
          intro hxe
          rw [hxe] at hx
          exact hcont ((dictContains_iff acc.1 e.1).mpr hx)
    constructor
    · intro x hx
      simp only [List.foldl_cons] at hx
      rcases (ih (updateStep an acc line)).1 x hx with h | h
      · exact hstep x h
      · refine Or.inr ?_
        cases hparse : parsePotLine line with
        | none => rw [potKeys_cons_none pl hparse]; exact h
        | some e => rw [potKeys_cons_some pl hparse]; exact List.mem_cons_of_mem _ h
    · intro hnd
      simp only [List.foldl_cons]
      exact (ih (updateStep an acc line)).2 (hstepnd hnd)

/-! ### Claim C1 -/

/-- The invariant the claim asserts: cracked keys lie among the original
hashes (plus key-uniqueness of the cracked dict, which `HashManager`'s
operations maintain). -/
def C1Inv (s : HashManagerState) : Prop :=
  crackedKeys s ⊆ s.original_hashes ∧ (s.cracked_hashes.map Prod.fst).Nodup

theorem C1Inv_count {s : HashManagerState} (h : C1Inv s) :
    s.cracked_hashes.length ≤ s.original_hashes.card := by
  have h1 : (s.cracked_hashes.map Prod.fst).toFinset.card =
      (s.cracked_hashes.map Prod.fst).length :=
    List.toFinset_card_of_nodup h.2
  have h2 := Finset.card_le_card h.1
  unfold crackedKeys at h2
  rw [h1, List.length_map] at h2
  exact h2

/-- C1 counterexample: the state a `HashManager` constructed over the hash
file `["a"]` and the potfile `["x:y", "z:w"]` actually reaches. -/
def c1BadState : HashManagerState :=
  { hashFileLines := ["a"]
    streaming_mode := false
    hasStreamProcessor := false
    original_hashes := {"a"}
    cracked_hashes := [("x", "y"), ("z", "w")]
    remaining_hashes := {"a"}
    attack_effectiveness := []
    total_hash_count := 0
    tempFiles := [] }

/-- C1 counterexample.  `_load_initial_state` and `update_progress` copy
potfile entries into `cracked_hashes` without checking membership in
`original_hashes`, so a potfile mentioning foreign hashes breaks
`cracked ⊆ original`: with hash file `["a"]` and potfile
`["x:y", "z:w"]`, the constructed state has cracked keys `{x, z} ⊄ {a}`,
and `update_progress` reports `total_cracked = 2` while `get_statistics`
reports `total_hashes = 1`. -/
theorem C1_counterexample :
    loadInitialState true ["a"] (some ["x:y", "z:w"]) false =
      Except.ok c1BadState ∧
    ¬ (crackedKeys c1BadState ⊆ c1BadState.original_hashes) ∧
    (update_progress c1BadState (some ["x:y", "z:w"]) none).2.total_cracked >
      (get_statistics c1BadState).total_hashes := by
  refine ⟨by decide, by decide, by decide⟩

/-- C1 (amended).  Provided every hash mentioned in the potfile is one of
the current original hashes, the cracked set stays inside the original set:
the invariant holds after construction, is preserved by `update_progress`
(whose `total_cracked` then never exceeds `get_statistics`'s
`total_hashes`) and by `add_hashes_dynamically`, and under it
`get_statistics` reports `cracked ≤ total_hashes`. -/
theorem C1_cracked_subset :
    (∀ (ex : Bool) (lines : List String) (pot : Option (List String))
        (sm : Bool) (s : HashManagerState),
      loadInitialState ex lines pot sm = Except.ok s →
      (∀ k ∈ potKeys (pot.getD []), k ∈ s.original_hashes) →
      C1Inv s) ∧
    (∀ (s : HashManagerState) (pot : Option (List String)) (an : Option String),
      C1Inv s → (∀ k ∈ potKeys (pot.getD []), k ∈ s.original_hashes) →
      C1Inv (update_progress s pot an).1 ∧
      (update_progress s pot an).2.total_cracked ≤
        (get_statistics (update_progress s pot an).1).total_hashes) ∧
    (∀ (s : HashManagerState) (hs : List String),
      C1Inv s → C1Inv (add_hashes_dynamically s hs).1) ∧
    (∀ s : HashManagerState, C1Inv s →
      (get_statistics s).cracked ≤ (get_statistics s).total_hashes) := by
  refine ⟨?_, ?_, ?_, ?_⟩
  · -- construction
    intro ex lines pot sm s hload hpot
    unfold loadInitialState at hload
    split at hload
    · cases hload
    · cases hload
      cases pot with
      | none => exact ⟨by simp [crackedKeys], by simp⟩
      | some pl =>
        refine ⟨?_, loadPotfile_nodup pl⟩
        intro x hx
        simp only [crackedKeys, List.mem_toFinset] at hx
        exact hpot x (loadPotfile_keys hx)
  · -- update_progress
    intro s pot an hinv hpot
    have hinv2 : C1Inv (update_progress s pot an).1 := by
      cases pot with
      | none => exact hinv
      | some pl =>
        constructor
        · intro x hx
          simp only [update_progress, crackedKeys, List.mem_toFinset] at hx
          rcases (updateFold an pl (s.cracked_hashes, [],
              s.attack_effectiveness)).1 x hx with h | h
          · exact hinv.1 (by simpa [crackedKeys] using h)
          · exact hpot x h
        · simp only [update_progress]
          exact (updateFold an pl _).2 hinv.2
    refine ⟨hinv2, ?_⟩
    have := C1Inv_count hinv2
    simpa [update_progress, get_statistics] using this
  · -- add_hashes_dynamically
    intro s hs hinv
    have H : ∀ (l : List String) (p : HashManagerState × Nat),
        C1Inv p.1 → C1Inv (l.foldl addStep p).1 := by
      intro l
      induction l with
      | nil => intro p h; exact h
      | cons a l ih =>
        intro p h
        refine ih _ ?_
        unfold addStep
        split
        · split
          · refine ⟨?_, h.2⟩
            intro x hx
            exact Finset.mem_insert_of_mem (h.1 hx)
          · refine ⟨?_, h.2⟩
            intro x hx
            exact Finset.mem_insert_of_mem (h.1 hx)
        · exact h
    exact H hs (s, 0) hinv
  · intro s hinv
    simpa [get_statistics] using C1Inv_count hinv

/-- The state loaded from hash file `["a"]` and potfile `["a:pw"]`. -/
def c1OkState : HashManagerState :=
  { hashFileLines := ["a"]
    streaming_mode := false
    hasStreamProcessor := false
    original_hashes := {"a"}
    cracked_hashes := [("a", "pw")]
    remaining_hashes := ∅
    attack_effectiveness := []
    total_hash_count := 0
    tempFiles := [] }

/-- Witness for `C1_cracked_subset` at a concrete manager: hash file
`["a"]`, potfile `["a:pw"]`. -/
theorem C1_cracked_subset_witness :
    loadInitialState true ["a"] (some ["a:pw"]) false = Except.ok c1OkState ∧
    (∀ k ∈ potKeys ((some ["a:pw"]).getD []),
      k ∈ c1OkState.original_hashes) ∧
    C1Inv c1OkState := by
  refine ⟨by decide, by decide, ?_⟩
  exact C1_cracked_subset.1 true ["a"] (some ["a:pw"]) false _ (by decide)
    (by decide)

/-! ### Claim C2 -/

/-- `remaining = original \ cracked` holds in every reachable state. -/
theorem reachable_remInv {s : HashManagerState} (h : Reachable s) :
    s.remaining_hashes = s.original_hashes \ crackedKeys s := by
  induction h with
  | load hload =>
    rename_i ex lines pot sm s
    unfold loadInitialState at hload
    split at hload
    · cases hload
    · cases hload
      rfl
  | update _ ih =>
    rename_i s pot an _
    simp only [update_progress, crackedKeys]
  | add _ ih =>
    rename_i s hs _
    have H : ∀ (l : List String) (p : HashManagerState × Nat),
        p.1.remaining_hashes = p.1.original_hashes \ crackedKeys p.1 →
        (l.foldl addStep p).1.remaining_hashes =
          (l.foldl addStep p).1.original_hashes \
            crackedKeys (l.foldl addStep p).1 := by
      intro l
      induction l with
      | nil => intro p h; exact h
      | cons a l ihl =>
        intro p h
        refine ihl _ ?_
        unfold addStep
        split
        · rename_i hfresh
          split
          · rename_i hnc
            have hnot : pystripS a ∉ crackedKeys p.1 := by
              intro hmem
              exact hnc ((dictContains_iff _ _).mpr (by
                simpa [crackedKeys, List.mem_toFinset] using hmem))
            show insert (pystripS a) p.1.remaining_hashes =
              insert (pystripS a) p.1.original_hashes \ crackedKeys p.1
            rw [h, Finset.insert_sdiff_of_not_mem _ hnot]
          · rename_i hnc
            rw [Classical.not_not] at hnc
            have hmem : pystripS a ∈ crackedKeys p.1 := by
              simpa [crackedKeys, List.mem_toFinset] using
                (dictContains_iff _ _).mp hnc
            show p.1.remaining_hashes =
              insert (pystripS a) p.1.original_hashes \ crackedKeys p.1
            rw [h, Finset.insert_sdiff_of_mem _ hmem]
        · exact h
    exact H hs (s, 0) ih

/-- The state of `HashManager(<missing file>, streaming_mode=True)`. -/
def c2StreamState : HashManagerState :=
  { hashFileLines := []
    streaming_mode := true
    hasStreamProcessor := true
    original_hashes := ∅
    cracked_hashes := []
    remaining_hashes := ∅
    attack_effectiveness := []
    total_hash_count := 0
    tempFiles := [] }

/-- C2 counterexample.  A streaming-mode manager is reachable — construct
`HashManager(hash_file, streaming_mode=True)` with a missing hash file and
the constructor succeeds — and on it `get_remaining_hashes_file` produces
no file: re-streaming the (still missing) source file raises
`FileNotFoundError` from `stream_hashes`' `open` (line 166 via
streaming_hash_processor.py line 58).  Were the file present at call time,
the loop would complete and line 172's `self.logger.debug` would raise
`AttributeError` instead (`self.logger` is never assigned); either way the
claim's streaming half never holds. -/
theorem C2_counterexample :
    loadInitialState false [] none true = Except.ok c2StreamState ∧
    get_remaining_hashes_file c2StreamState none =
      Except.error PyError.fileNotFoundError ∧
    get_remaining_hashes_file c2StreamState (some ["a"]) =
      Except.error PyError.attributeError := by
  exact ⟨by decide, by decide, by decide⟩

/-- C2 (amended).  For every reachable **in-memory-mode** `HashManager`
state, `get_remaining_hashes_file` returns — whatever the on-disk hash
file looks like at call time — a file whose line set is exactly
`original \ cracked`, created with mode `0o600` and appended to the tracked
temp-file list.  (In streaming mode the call produces no file:
re-streaming the missing source raises `FileNotFoundError`; see
`C2_counterexample`.) -/
theorem C2_remaining_file (s : HashManagerState) (hr : Reachable s)
    (hm : s.streaming_mode = false) (hashFile : Option (List String)) :
    get_remaining_hashes_file s hashFile =
      Except.ok
        ({ lines := s.original_hashes \ crackedKeys s, mode := 0o600 },
          { s with tempFiles := s.tempFiles ++
              [{ lines := s.original_hashes \ crackedKeys s, mode := 0o600 }] }) := by
  unfold get_remaining_hashes_file
  rw [if_neg (by rw [hm]; simp)]
  rw [reachable_remInv hr]

/-- The state loaded from hash file `["a"]` with no potfile. -/
def c2WitState : HashManagerState :=
  { hashFileLines := ["a"]
    streaming_mode := false
    hasStreamProcessor := false
    original_hashes := {"a"}
    cracked_hashes := []
    remaining_hashes := {"a"}
    attack_effectiveness := []
    total_hash_count := 0
    tempFiles := [] }

/-- Witness for `C2_remaining_file` on a freshly constructed manager. -/
theorem C2_remaining_file_witness :
    get_remaining_hashes_file c2WitState (some ["a"]) =
      Except.ok
        ({ lines := c2WitState.original_hashes \ crackedKeys c2WitState,
            mode := 0o600 },
          { c2WitState with tempFiles := c2WitState.tempFiles ++
              [{ lines := c2WitState.original_hashes \ crackedKeys c2WitState,
                  mode := 0o600 }] }) :=
  C2_remaining_file _
    (@Reachable.load true ["a"] none false c2WitState (by decide)) rfl
    (some ["a"])

/-! ### Claim C9 -/

/-- C9.  For hash files of size ≤ 50 MB the (default) construction loads
the entire target set into memory in-memory-mode; but for every file larger
than 50 MB — here a single line of 50·2²⁰ characters, 52 428 801 bytes with
its newline — the constructor **raises `AttributeError`**: the streaming
path's completion log `self.logger.info(...)` reads the never-assigned
`self.logger`, and the handler's `self.logger.error(...)` re-raises out of
`__init__`.  The claimed streaming behaviour (count pass + bounded sample)
is dead code. -/
theorem C9_streaming_mode :
    (∀ (lines : List String) (pot : Option (List String)),
      fileSizeBytes lines ≤ 50 * 1024 * 1024 →
      loadInitialState true lines pot false =
        Except.ok
          { hashFileLines := lines
            streaming_mode := false
            hasStreamProcessor := false
            original_hashes := stripLineSet lines
            cracked_hashes := (match pot with
              | some pl => loadPotfile pl
              | none => [])
            remaining_hashes := stripLineSet lines \
              ((match pot with
                | some pl => loadPotfile pl
                | none => ([] : List (String × String))).map Prod.fst).toFinset
            attack_effectiveness := []
            total_hash_count := 0
            tempFiles := [] }) ∧
    loadInitialState true [String.mk (List.replicate (50 * 1024 * 1024) 'a')]
        none false =
      Except.error PyError.attributeError := by
  constructor
  · intro lines pot hsize
    unfold loadInitialState
    rw [if_neg (by simp; omega)]
    rfl
  · have hlen : (String.mk (List.replicate (50 * 1024 * 1024) 'a')).length =
        50 * 1024 * 1024 := by
      show (List.replicate (50 * 1024 * 1024) 'a').length = _
      rw [List.length_replicate]
    have hsize : fileSizeBytes
        [String.mk (List.replicate (50 * 1024 * 1024) 'a')] =
        50 * 1024 * 1024 + 1 := by
      unfold fileSizeBytes
      rw [List.map_cons, List.map_nil, List.sum_cons, List.sum_nil, hlen]
      omega
    unfold loadInitialState
    rw [if_pos (by refine ⟨rfl, Or.inr ?_⟩; rw [hsize]; omega)]

/-- Witness for `C9_streaming_mode` at a tiny file. -/
theorem C9_streaming_mode_witness :
    fileSizeBytes ["aa"] ≤ 50 * 1024 * 1024 ∧
    loadInitialState true ["aa"] none false =
      Except.ok
        { hashFileLines := ["aa"]
          streaming_mode := false
          hasStreamProcessor := false
          original_hashes := stripLineSet ["aa"]
          cracked_hashes := []
          remaining_hashes := stripLineSet ["aa"] \
            (([] : List (String × String)).map Prod.fst).toFinset
          attack_effectiveness := []
          total_hash_count := 0
          tempFiles := [] } :=
  ⟨by decide, C9_streaming_mode.1 ["aa"] none (by decide)⟩

/-- Witness for `C5_read_incremental` at a concrete state and files. -/
theorem C5_read_incremental_witness :
    ([("q", 9)].lookup "p" |>.getD 0) ≤ ("one\n".data.length) ∧
    ("one\n".data = [] ∨ "one\n".data.getLast? = some '\n') ∧
    (read_incremental [("q", 9)] "p" (some "one\n")).1 ++
        (read_incremental (read_incremental [("q", 9)] "p" (some "one\n")).2 "p"
          (some ("one\n" ++ "two\n"))).1 =
      (read_incremental [("q", 9)] "p" (some ("one\n" ++ "two\n"))).1 := by
  refine ⟨by decide, by decide, ?_⟩
  exact ((C5_read_incremental [("q", 9)] "p").2.2 "one\n" "two\n" (by decide)
    (by decide)).1

/-! ## `HashAnalyzer` (src/core/hash_analyzer.py)

`HASH_PATTERNS` (lines 10–79) is a class-level Python **dict literal**
mapping regex source strings to `{name, mode, confidence}` records.  The
literal writes 38 entries, but the key `^[a-f0-9]{32}$` appears **twice**:
line 12 (`MD5`, mode 0, confidence 0.9) and line 24 (`NTLM`, mode 1000,
confidence 0.7, annotated "Same as MD5, lower confidence").  CPython
dict-literal semantics keep the first occurrence's position with the last
occurrence's value, so the effective table has 37 entries and **no `MD5`
entry at all**.  `RAW_HASH_PATTERN_TABLE` below is the literal exactly as
written (38 entries, duplicate included); `HASH_PATTERNS` is its
dict-semantics fold via `dictSet`; `effectivePatterns` pairs each effective
entry, in effective order, with a Lean matcher for its regex.  All regexes
run under `re.match(..., re.IGNORECASE)`: anchored at the start, anchored
at the end only when the pattern ends in `$`, case-insensitive. -/

/-- `[a-zA-Z0-9]` (ASCII). -/
def asciiAlphanum (c : Char) : Bool :=
  ('0' ≤ c && c ≤ '9') || ('a' ≤ c && c ≤ 'z') || ('A' ≤ c && c ≤ 'Z')

/-- `[a-f0-9]` under `re.IGNORECASE`, i.e. `[a-fA-F0-9]`. -/
def hexCI (c : Char) : Bool :=
  ('0' ≤ c && c ≤ '9') || ('a' ≤ c && c ≤ 'f') || ('A' ≤ c && c ≤ 'F')

/-- Membership in the literal `'0123456789abcdef'` (analyzer line 145). -/
def hexLowerDigits (c : Char) : Bool :=
  ('0' ≤ c && c ≤ '9') || ('a' ≤ c && c ≤ 'f')

/-- `[a-zA-Z0-9./]` — the crypt(3)-style salt/hash alphabet. -/
def dotClass (c : Char) : Bool := asciiAlphanum c || c == '.' || c == '/'

/-- `[a-zA-Z0-9+/]` — base64. -/
def b64Class (c : Char) : Bool := asciiAlphanum c || c == '+' || c == '/'

/-- `[A-Za-z0-9-_]` — the JWT segment alphabet. -/
def jwtClass (c : Char) : Bool := asciiAlphanum c || c == '-' || c == '_'

/-- `^[a-f0-9]{n}$` under IGNORECASE. -/
def patHexRun (n : Nat) (l : List Char) : Bool := l.length == n && l.all hexCI

/-- `re.match` of a literal text under IGNORECASE: the first `pre.length`
characters, lowercased, equal `pre` (which is given lowercase). -/
def startsWithCI (pre : List Char) (l : List Char) : Bool :=
  (l.take pre.length).map Char.toLower == pre

/-- Python `str.split(sep)` on character lists: `splitOnChar sep l` is the
list of maximal `sep`-free segments; always non-empty. -/
def splitOnChar (sep : Char) : List Char → List (List Char)
  | [] => [[]]
  | c :: rest =>
    if c = sep then [] :: splitOnChar sep rest
    else
      match splitOnChar sep rest with
      | [] => [[c]]
      | h :: t => (c :: h) :: t

/-- `^[a-f0-9]{32}:[a-f0-9]+$` (hex is colon-free, so the first 32
characters are the run before the first `:`). -/
def pat_md5salt (l : List Char) : Bool :=
  let a := l.takeWhile (fun c => c ≠ ':')
  a.length == 32 && a.all hexCI &&
    match l.drop 32 with
    | ':' :: b => !b.isEmpty && b.all hexCI
    | _ => false

/-- `^\$<tag>[a-zA-Z0-9./]{saltMin,saltMax}\$[a-zA-Z0-9./]{hashLen}$`
where `tag` includes both `$` delimiters, e.g. `$1$`.  The salt class is
`$`-free, so the salt is exactly the run up to the next `$`. -/
def cryptPat (tag : List Char) (saltMin saltMax hashLen : Nat) (l : List Char) :
    Bool :=
  startsWithCI tag l &&
    (let rest := l.drop tag.length
     let salt := rest.takeWhile (fun c => c ≠ '$')
     Nat.ble saltMin salt.length && Nat.ble salt.length saltMax &&
       salt.all dotClass &&
       match rest.drop salt.length with
       | '$' :: h => h.length == hashLen && h.all dotClass
       | _ => false)

/-- `^[a-f0-9]{32}:[a-f0-9]{32}$`. -/
def pat_netntlmv1 (l : List Char) : Bool :=
  let a := l.takeWhile (fun c => c ≠ ':')
  a.length == 32 && a.all hexCI &&
    match l.drop 32 with
    | ':' :: b => b.length == 32 && b.all hexCI
    | _ => false

/-- `^[a-zA-Z0-9+/]{27,}=$` (`=` is not in the class, so it is exactly the
final character). -/
def pat_netntlmv2 (l : List Char) : Bool :=
  Nat.ble 28 l.length && l.dropLast.all b64Class && l.getLast? == some '='

/-- `^\$2[ayb]\$[0-9]{2}\$[a-zA-Z0-9./]{53}$` under IGNORECASE. -/
def pat_bcrypt (l : List Char) : Bool :=
  match l with
  | '$' :: '2' :: v :: '$' :: d1 :: d2 :: '$' :: h =>
    (v.toLower == 'a' || v.toLower == 'y' || v.toLower == 'b') &&
      d1.isDigit && d2.isDigit && h.length == 53 && h.all dotClass
  | _ => false

/-- `^\*[A-F0-9]{40}$` under IGNORECASE. -/
def pat_mysql41 (l : List Char) : Bool :=
  match l with
  | '*' :: h => h.length == 40 && h.all hexCI
  | _ => false

/-- `^md5[a-f0-9]{32}$` under IGNORECASE. -/
def pat_postgres (l : List Char) : Bool :=
  startsWithCI ['m', 'd', '5'] l &&
    (let h := l.drop 3
     h.length == 32 && h.all hexCI)

/-- `^\$P\$[a-zA-Z0-9./]{31}$` (or `$H$` for `tagc = 'h'`) under
IGNORECASE. -/
def pat_phpbb (tagc : Char) (l : List Char) : Bool :=
  match l with
  | '$' :: p :: '$' :: h =>
    p.toLower == tagc && h.length == 31 && h.all dotClass
  | _ => false

/-- `^sha1\$[a-f0-9]{8}\$[a-f0-9]{40}$` under IGNORECASE. -/
def pat_django (l : List Char) : Bool :=
  startsWithCI ['s', 'h', 'a', '1', '$'] l &&
    (let rest := l.drop 5
     let salt := rest.takeWhile (fun c => c ≠ '$')
     salt.length == 8 && salt.all hexCI &&
       match rest.drop salt.length with
       | '$' :: h => h.length == 40 && h.all hexCI
       | _ => false)

/-- `^ey[A-Za-z0-9-_]+\.ey[A-Za-z0-9-_]+\.[A-Za-z0-9-_]+$` under
IGNORECASE (`.` is not in the class, so the segments are the `.`-split). -/
def pat_jwt (l : List Char) : Bool :=
  match splitOnChar '.' l with
  | [p1, p2, p3] =>
    startsWithCI ['e', 'y'] p1 && Nat.ble 3 p1.length && p1.all jwtClass &&
      startsWithCI ['e', 'y'] p2 && Nat.ble 3 p2.length && p2.all jwtClass &&
      Nat.ble 1 p3.length && p3.all jwtClass
  | _ => false

/-- The value type of `HASH_PATTERNS`: `{'name': …, 'mode': …,
'confidence': …}`. -/
structure HashInfo where
  name : String
  mode : Nat
  confidence : Rat
deriving DecidableEq

/-- The `HASH_PATTERNS` dict literal exactly as written in source order,
duplicate key included (lines 12 and 24 both use the key
`^[a-f0-9]{32}$`). -/
def RAW_HASH_PATTERN_TABLE : List (String × HashInfo) :=
  [("^[a-f0-9]\x7b32\x7d$", ⟨"MD5", 0, mkRat 9 10⟩),
    ("^[a-f0-9]\x7b32\x7d:[a-f0-9]+$", ⟨"MD5 with salt", 10, mkRat 9 10⟩),
    ("^\\$1\\$[a-zA-Z0-9./]\x7b8\x7d\\$[a-zA-Z0-9./]\x7b22\x7d$",
      ⟨"MD5 Crypt", 500, mkRat 1 1⟩),
    ("^[a-f0-9]\x7b40\x7d$", ⟨"SHA1", 100, mkRat 9 10⟩),
    ("^[a-f0-9]\x7b64\x7d$", ⟨"SHA256", 1400, mkRat 9 10⟩),
    ("^[a-f0-9]\x7b96\x7d$", ⟨"SHA384", 10800, mkRat 9 10⟩),
    ("^[a-f0-9]\x7b128\x7d$", ⟨"SHA512", 1700, mkRat 9 10⟩),
    ("^\\$6\\$[a-zA-Z0-9./]\x7b8,16\x7d\\$[a-zA-Z0-9./]\x7b86\x7d$",
      ⟨"SHA512 Crypt", 1800, mkRat 1 1⟩),
    ("^[a-f0-9]\x7b32\x7d$", ⟨"NTLM", 1000, mkRat 7 10⟩),
    ("^[a-f0-9]\x7b32\x7d:[a-f0-9]\x7b32\x7d$", ⟨"NetNTLMv1", 5500, mkRat 95 100⟩),
    ("^[a-zA-Z0-9+/]\x7b27,\x7d=$", ⟨"NetNTLMv2", 5600, mkRat 9 10⟩),
    ("^\\$2[ayb]\\$[0-9]\x7b2\x7d\\$[a-zA-Z0-9./]\x7b53\x7d$",
      ⟨"bcrypt", 3200, mkRat 1 1⟩),
    ("^\\*[A-F0-9]\x7b40\x7d$", ⟨"MySQL 4.1+", 300, mkRat 1 1⟩),
    ("^[a-f0-9]\x7b16\x7d$", ⟨"MySQL 3.x", 200, mkRat 8 10⟩),
    ("^md5[a-f0-9]\x7b32\x7d$", ⟨"PostgreSQL MD5", 12, mkRat 1 1⟩),
    ("^\\$krb5tgs\\$", ⟨"Kerberos 5 TGS-REP", 13100, mkRat 1 1⟩),
    ("^\\$krb5pa\\$", ⟨"Kerberos 5 AS-REP", 7500, mkRat 1 1⟩),
    ("^\\$office\\$", ⟨"MS Office", 9400, mkRat 1 1⟩),
    ("^\\$pdf\\$", ⟨"PDF", 10500, mkRat 1 1⟩),
    ("^\\$P\\$[a-zA-Z0-9./]\x7b31\x7d$", ⟨"phpBB3/WordPress", 400, mkRat 1 1⟩),
    ("^\\$H\\$[a-zA-Z0-9./]\x7b31\x7d$",
      ⟨"phpBB3/WordPress (alt)", 400, mkRat 1 1⟩),
    ("^sha1\\$[a-f0-9]\x7b8\x7d\\$[a-f0-9]\x7b40\x7d$",
      ⟨"Django SHA1", 800, mkRat 1 1⟩),
    ("^\\$argon2i\\$", ⟨"Argon2i", 10900, mkRat 1 1⟩),
    ("^\\$argon2d\\$", ⟨"Argon2d", 11300, mkRat 1 1⟩),
    ("^\\$argon2id\\$", ⟨"Argon2id", 11900, mkRat 1 1⟩),
    ("^\\$ethereum\\$", ⟨"Ethereum Wallet", 15700, mkRat 1 1⟩),
    ("^\\$bitcoin\\$", ⟨"Bitcoin Wallet", 11300, mkRat 1 1⟩),
    ("^metamask:", ⟨"MetaMask Wallet", 26600, mkRat 1 1⟩),
    ("^\\$luks\\$", ⟨"LUKS2", 29543, mkRat 1 1⟩),
    ("^\\$ansible\\$", ⟨"Ansible Vault", 16900, mkRat 1 1⟩),
    ("^\\$zip3\\$", ⟨"ZIP3 AES-256", 24700, mkRat 1 1⟩),
    ("^\\$okta\\$", ⟨"Okta PBKDF2-SHA512", 10900, mkRat 1 1⟩),
    ("^\\$mongodb-scram\\$", ⟨"MongoDB SCRAM", 24700, mkRat 1 1⟩),
    ("^\\$msonline\\$", ⟨"Microsoft Online Account", 27800, mkRat 1 1⟩),
    ("^\\$snmpv3\\$", ⟨"SNMPv3 HMAC-SHA*-AES*", 25000, mkRat 1 1⟩),
    ("^\\$ssh\\$", ⟨"OpenSSH Private Key", 22921, mkRat 1 1⟩),
    ("^\\$gpg\\$", ⟨"GPG Secret Key", 17010, mkRat 1 1⟩),
    ("^ey[A-Za-z0-9-_]+\\.ey[A-Za-z0-9-_]+\\.[A-Za-z0-9-_]+$",
      ⟨"JWT Token", 16500, mkRat 1 1⟩)]

/-- The effective `HASH_PATTERNS` dict: the literal folded under CPython
dict-literal semantics (first occurrence's position, last occurrence's
value). -/
def HASH_PATTERNS : List (String × HashInfo) :=
  RAW_HASH_PATTERN_TABLE.foldl (fun d kv => dictSet d kv.1 kv.2) []

/-- The effective pattern table with each regex replaced by its Lean
matcher, in the same (effective) order with the same values. -/
def effectivePatterns : List ((List Char → Bool) × HashInfo) :=
  [(patHexRun 32, ⟨"NTLM", 1000, mkRat 7 10⟩),
    (pat_md5salt, ⟨"MD5 with salt", 10, mkRat 9 10⟩),
    (cryptPat ['$', '1', '$'] 8 8 22, ⟨"MD5 Crypt", 500, mkRat 1 1⟩),
    (patHexRun 40, ⟨"SHA1", 100, mkRat 9 10⟩),
    (patHexRun 64, ⟨"SHA256", 1400, mkRat 9 10⟩),
    (patHexRun 96, ⟨"SHA384", 10800, mkRat 9 10⟩),
    (patHexRun 128, ⟨"SHA512", 1700, mkRat 9 10⟩),
    (cryptPat ['$', '6', '$'] 8 16 86, ⟨"SHA512 Crypt", 1800, mkRat 1 1⟩),
    (pat_netntlmv1, ⟨"NetNTLMv1", 5500, mkRat 95 100⟩),
    (pat_netntlmv2, ⟨"NetNTLMv2", 5600, mkRat 9 10⟩),
    (pat_bcrypt, ⟨"bcrypt", 3200, mkRat 1 1⟩),
    (pat_mysql41, ⟨"MySQL 4.1+", 300, mkRat 1 1⟩),
    (patHexRun 16, ⟨"MySQL 3.x", 200, mkRat 8 10⟩),
    (pat_postgres, ⟨"PostgreSQL MD5", 12, mkRat 1 1⟩),
    (startsWithCI ['$', 'k', 'r', 'b', '5', 't', 'g', 's', '$'],
      ⟨"Kerberos 5 TGS-REP", 13100, mkRat 1 1⟩),
    (startsWithCI ['$', 'k', 'r', 'b', '5', 'p', 'a', '$'],
      ⟨"Kerberos 5 AS-REP", 7500, mkRat 1 1⟩),
    (startsWithCI ['$', 'o', 'f', 'f', 'i', 'c', 'e', '$'],
      ⟨"MS Office", 9400, mkRat 1 1⟩),
    (startsWithCI ['$', 'p', 'd', 'f', '$'], ⟨"PDF", 10500, mkRat 1 1⟩),
    (pat_phpbb 'p', ⟨"phpBB3/WordPress", 400, mkRat 1 1⟩),
    (pat_phpbb 'h', ⟨"phpBB3/WordPress (alt)", 400, mkRat 1 1⟩),
    (pat_django, ⟨"Django SHA1", 800, mkRat 1 1⟩),
    (startsWithCI ['$', 'a', 'r', 'g', 'o', 'n', '2', 'i', '$'],
      ⟨"Argon2i", 10900, mkRat 1 1⟩),
    (startsWithCI ['$', 'a', 'r', 'g', 'o', 'n', '2', 'd', '$'],
      ⟨"Argon2d", 11300, mkRat 1 1⟩),
    (startsWithCI ['$', 'a', 'r', 'g', 'o', 'n', '2', 'i', 'd', '$'],
      ⟨"Argon2id", 11900, mkRat 1 1⟩),
    (startsWithCI ['$', 'e', 't', 'h', 'e', 'r', 'e', 'u', 'm', '$'],
      ⟨"Ethereum Wallet", 15700, mkRat 1 1⟩),
    (startsWithCI ['$', 'b', 'i', 't', 'c', 'o', 'i', 'n', '$'],
      ⟨"Bitcoin Wallet", 11300, mkRat 1 1⟩),
    (startsWithCI ['m', 'e', 't', 'a', 'm', 'a', 's', 'k', ':'],
      ⟨"MetaMask Wallet", 26600, mkRat 1 1⟩),
    (startsWithCI ['$', 'l', 'u', 'k', 's', '$'], ⟨"LUKS2", 29543, mkRat 1 1⟩),
    (startsWithCI ['$', 'a', 'n', 's', 'i', 'b', 'l', 'e', '$'],
      ⟨"Ansible Vault", 16900, mkRat 1 1⟩),
    (startsWithCI ['$', 'z', 'i', 'p', '3', '$'],
      ⟨"ZIP3 AES-256", 24700, mkRat 1 1⟩),
    (startsWithCI ['$', 'o', 'k', 't', 'a', '$'],
      ⟨"Okta PBKDF2-SHA512", 10900, mkRat 1 1⟩),
    (startsWithCI
        ['$', 'm', 'o', 'n', 'g', 'o', 'd', 'b', '-', 's', 'c', 'r', 'a', 'm', '$'],
      ⟨"MongoDB SCRAM", 24700, mkRat 1 1⟩),
    (startsWithCI ['$', 'm', 's', 'o', 'n', 'l', 'i', 'n', 'e', '$'],
      ⟨"Microsoft Online Account", 27800, mkRat 1 1⟩),
    (startsWithCI ['$', 's', 'n', 'm', 'p', 'v', '3', '$'],
      ⟨"SNMPv3 HMAC-SHA*-AES*", 25000, mkRat 1 1⟩),
    (startsWithCI ['$', 's', 's', 'h', '$'],
      ⟨"OpenSSH Private Key", 22921, mkRat 1 1⟩),
    (startsWithCI ['$', 'g', 'p', 'g', '$'],
      ⟨"GPG Secret Key", 17010, mkRat 1 1⟩),
    (pat_jwt, ⟨"JWT Token", 16500, mkRat 1 1⟩)]

/-- `HashAnalyzer._detect_hash_type` (lines 128–153): strip, collect all
matching patterns, return the highest-confidence match (Python `max` keeps
the **first** maximum under strict `>` comparison, i.e. table order breaks
ties); if nothing matched, the `hash:salt` heuristic for 32/40-hex first
components at confidence 0.7. -/
def detect_hash_type (s : String) : Option HashInfo :=
  let t := pystrip s.data
  match (effectivePatterns.filter (fun p => p.1 t)).map Prod.snd with
  | m :: ms =>
    some (ms.foldl (fun best cand =>
      if best.confidence < cand.confidence then cand else best) m)
  | [] =>
    if t.contains ':' then
      match splitOnChar ':' t with
      | [a, _b] =>
        if (a.map Char.toLower).all hexLowerDigits then
          if a.length = 32 then some ⟨"MD5 with salt", 10, mkRat 7 10⟩
          else if a.length = 40 then some ⟨"SHA1 with salt", 110, mkRat 7 10⟩
          else none
        else none
      | _ => none
    else none

/-- `line[:50] + '...' if len(line) > 50 else line`. -/
def sampleOf (line : List Char) : String :=
  if 50 < line.length then String.mk (line.take 50) ++ "..." else String.mk line

/-- A value of the `detected_types` dict. -/
structure TypeEntry where
  count : Nat
  mode : Nat
  confidence : Rat
  samples : List String
deriving DecidableEq

/-- `count += 1`, and append the (truncated) line to `samples` while fewer
than 3 are stored (lines 113–115). -/
def bumpEntry (e : TypeEntry) (line : List Char) : TypeEntry :=
  { e with
    count := e.count + 1
    samples :=
      if e.samples.length < 3 then e.samples ++ [sampleOf line] else e.samples }

/-- An `unknown_hashes` record (lines 118–121). -/
structure UnknownEntry where
  line : Nat
  hash : String
deriving DecidableEq

/-- A recommendation record.  The extra payload keys (`command`, `types`,
`wordlists`, `settings`, `samples`) are display-only and vary per action;
the embedding keeps the three keys common to every record. -/
structure Recommendation where
  priority : String
  action : String
  description : String
deriving DecidableEq

/-- The `results` dict of `analyze_file`. -/
structure AnalysisResult where
  total_hashes : Nat
  detected_types : List (String × TypeEntry)
  unknown_hashes : List UnknownEntry
  recommendations : List Recommendation
deriving DecidableEq

/-- One iteration of the `analyze_file` loop (lines 95–121) on the raw line
numbered `line_num` (enumeration counts every line, blank ones included;
blank lines are skipped after counting). -/
def analyzeLine (st : AnalysisResult) (line_num : Nat) (raw : String) :
    AnalysisResult :=
  let line := pystrip raw.data
  if line.isEmpty then st
  else
    let st := { st with total_hashes := st.total_hashes + 1 }
    match detect_hash_type (String.mk line) with
    | some info =>
      match st.detected_types.lookup info.name with
      | some e =>
        { st with detected_types := dictSet st.detected_types info.name (bumpEntry e line) }
      | none =>
        { st with detected_types :=
            st.detected_types ++ [(info.name, bumpEntry ⟨0, info.mode, info.confidence, []⟩ line)] }
    | none =>
      if st.unknown_hashes.length < 10 then
        { st with unknown_hashes := st.unknown_hashes ++ [⟨line_num, sampleOf line⟩] }
      else st

/-- The `analyze_file` loop over `enumerate(f, 1)`. -/
def analyzeLines : AnalysisResult → Nat → List String → AnalysisResult
  | st, _, [] => st
  | st, n, l :: rest => analyzeLines (analyzeLine st n l) (n + 1) rest

/-- `{'high': 0, 'medium': 1, 'low': 2}[priority]` (line 213). -/
def prioRank (p : String) : Nat :=
  if p = "high" then 0 else if p = "medium" then 1 else 2

/-- Stable insertion into a rank-sorted list: equal ranks keep earlier
insertions first, as Python's stable `sorted` does. -/
def insertByRank (x : Recommendation) : List Recommendation → List Recommendation
  | [] => [x]
  | y :: ys =>
    if prioRank y.priority ≤ prioRank x.priority then y :: insertByRank x ys
    else x :: y :: ys

/-- Stable sort by priority rank — pointwise equal to Python's stable
`sorted(..., key=rank)` since a stable sort's output is unique. -/
def sortByRank (l : List Recommendation) : List Recommendation :=
  l.foldl (fun acc x => insertByRank x acc) []

/-- `hay.take needle.length == needle`. -/
def listHasPre (needle hay : List Char) : Bool :=
  hay.take needle.length == needle

/-- Python's substring test `needle in hay`. -/
def hasSub (needle : List Char) : List Char → Bool
  | [] => needle.isEmpty
  | c :: rest => listHasPre needle (c :: rest) || hasSub needle rest

/-- `HashAnalyzer._generate_recommendations` (lines 155–213): single-type /
multi-type headline, per-type context hints in `detected_types` key order,
the unknown-formats note, all stably sorted by priority rank. -/
def generate_recommendations (r : AnalysisResult) : List Recommendation :=
  let recs : List Recommendation :=
    match r.detected_types with
    | [(t, info)] =>
      [⟨"high", "single_mode_attack",
        "Use mode " ++ toString info.mode ++ " for " ++ t ++ " hashes"⟩]
    | _ =>
      if 1 < r.detected_types.length then
        [⟨"high", "split_by_type", "Split hashes by type for optimal performance"⟩]
      else []
  let recs := r.detected_types.foldl (fun acc kv =>
    if hasSub ['N', 'T', 'L', 'M'] kv.1.data ||
        hasSub ['N', 'e', 't', 'N', 'T', 'L', 'M'] kv.1.data then
      acc ++ [⟨"medium", "use_ad_wordlists",
        "Detected Windows hashes - use Active Directory focused wordlists"⟩]
    else if hasSub ['M', 'y', 'S', 'Q', 'L'] kv.1.data ||
        hasSub ['P', 'o', 's', 't', 'g', 'r', 'e', 'S', 'Q', 'L'] kv.1.data then
      acc ++ [⟨"medium", "use_db_defaults",
        "Detected database hashes - try default credentials"⟩]
    else if hasSub ['b', 'c', 'r', 'y', 'p', 't'] kv.1.data then
      acc ++ [⟨"high", "optimize_bcrypt",
        "bcrypt is slow - use targeted wordlists and limit iterations"⟩]
    else acc) recs
  let recs :=
    if r.unknown_hashes.isEmpty then recs
    else
      recs ++ [⟨"low", "investigate_unknown",
        "Found " ++ toString r.unknown_hashes.length ++
          " unknown hash formats - manual review needed"⟩]
  sortByRank recs

/-- `HashAnalyzer.analyze_file` (lines 85–126) on the file's raw line
list. -/
def analyze_file (lines : List String) : AnalysisResult :=
  let st := analyzeLines ⟨0, [], [], []⟩ 1 lines
  { st with recommendations := generate_recommendations st }

/-- The S6 file: 100 MD5-shaped lines, 50 SHA1-shaped lines, 10 garbage
lines. -/
def s6File : List String :=
  List.replicate 100 "5f4dcc3b5aa765d61d8327deb882cf99" ++
    List.replicate 50 "da39a3ee5e6b4b0d3255bfef95601890afd80709" ++
      List.replicate 10 "zzz"

/-! ### Claim C3 -/

/-- C3.  The duplicate dict key `^[a-f0-9]{32}$` (analyzer lines 12 and 24)
makes the written `MD5` entry unreachable: under CPython dict-literal
semantics the 38 written entries collapse to 37, the 32-hex key maps to
`NTLM` (mode 1000, confidence 0.7), and no `MD5` entry exists.
Consequently `_detect_hash_type` classifies a 32-hex line as `NTLM`, and on
the S6 file (100 MD5-shaped + 50 SHA1-shaped + 10 garbage lines)
`analyze_file` returns total 160, a `NTLM` type with count 100 — **not the
claimed `MD5`, which is absent** — `SHA1` with count 50, exactly 10 unknown
entries, and the high-priority `split_by_type` recommendation (plus the
spurious Windows-wordlist hint that `NTLM` triggers). -/
theorem C3_pattern_table_and_analysis :
    RAW_HASH_PATTERN_TABLE.length = 38
    ∧ (RAW_HASH_PATTERN_TABLE.map Prod.snd).contains ⟨"MD5", 0, mkRat 9 10⟩ = true
    ∧ HASH_PATTERNS.length = 37
    ∧ HASH_PATTERNS.map Prod.snd = effectivePatterns.map Prod.snd
    ∧ HASH_PATTERNS.lookup "^[a-f0-9]\x7b32\x7d$" =
        some ⟨"NTLM", 1000, mkRat 7 10⟩
    ∧ (HASH_PATTERNS.map (fun kv => kv.2.name)).contains "MD5" = false
    ∧ detect_hash_type "5f4dcc3b5aa765d61d8327deb882cf99" =
        some ⟨"NTLM", 1000, mkRat 7 10⟩
    ∧ analyze_file s6File =
        { total_hashes := 160
          detected_types :=
            [("NTLM", ⟨100, 1000, mkRat 7 10,
                ["5f4dcc3b5aa765d61d8327deb882cf99",
                  "5f4dcc3b5aa765d61d8327deb882cf99",
                  "5f4dcc3b5aa765d61d8327deb882cf99"]⟩),
              ("SHA1", ⟨50, 100, mkRat 9 10,
                ["da39a3ee5e6b4b0d3255bfef95601890afd80709",
                  "da39a3ee5e6b4b0d3255bfef95601890afd80709",
                  "da39a3ee5e6b4b0d3255bfef95601890afd80709"]⟩)]
          unknown_hashes :=
            [⟨151, "zzz"⟩, ⟨152, "zzz"⟩, ⟨153, "zzz"⟩, ⟨154, "zzz"⟩,
              ⟨155, "zzz"⟩, ⟨156, "zzz"⟩, ⟨157, "zzz"⟩, ⟨158, "zzz"⟩,
              ⟨159, "zzz"⟩, ⟨160, "zzz"⟩]
          recommendations :=
            [⟨"high", "split_by_type",
                "Split hashes by type for optimal performance"⟩,
              ⟨"medium", "use_ad_wordlists",
                "Detected Windows hashes - use Active Directory focused wordlists"⟩,
              ⟨"low", "investigate_unknown",
                "Found 10 unknown hash formats - manual review needed"⟩] } := by
  set_option maxRecDepth 10000 in decide

/-! ## `CommandBuilder` (src/core/security.py 276–364) and mask validation
(src/core/pattern_cache.py 193–196)

`build_hashcat_command(hash_file, attack_params)` assembles the hashcat
argv.  `attack_params` is a Python dict: a stage runs only when its key is
present (`'mode' in attack_params`), and most stages additionally require
the value to be truthy (non-`None`, non-empty).  Dict presence is modelled
by an outer `Option`, a possibly-`None` value by an inner one.  File-path
validation (`SecurityValidator.validate_file_path`) is a parameter
`validate : String → Bool → Except BuildErr String` (path, `must_exist`);
the mask and session checks are embedded.  Python exceptions are
`Except.error`. -/

/-- The safe-mask character class.  Both the validation regex
`^[?ludsahHx0-9a-zA-Z]+$` (pattern_cache.py line 137) and the error-path
literal `'?ludsahHx0123456789abcdefghijklmnopqrstuvwxyzABCDEFGHIJKLMNOPQRSTUVWXYZ'`
(security.py line 322) denote exactly `{?} ∪ digits ∪ ASCII letters` (the
letters `ludsahHx` are absorbed by the ranges). -/
def SAFE_MASK_CHAR (c : Char) : Bool := c == '?' || asciiAlphanum c

/-- What Python's `$` (without `re.MULTILINE`) anchors to: the end of the
string **or just before a single trailing newline**.  For a
newline-free character class `C`, `re.match(r'^C+$', s)` therefore matches
iff `dollarCore s` is non-empty and all of `C` — one trailing `'\n'` is
tolerated. -/
def dollarCore (l : List Char) : List Char :=
  if l.getLast? = some '\n' then l.dropLast else l

/-- `HashPatterns.is_valid_mask`:
`bool(re.match(r'^[?ludsahHx0-9a-zA-Z]+$', mask))` — note `$`'s
trailing-newline tolerance. -/
def is_valid_mask (m : String) : Bool :=
  !(dollarCore m.data).isEmpty && (dollarCore m.data).all SAFE_MASK_CHAR

/-- `HashPatterns.is_valid_session_name`:
`bool(re.match(r'^[a-zA-Z0-9_\-]+$', name))` — same `$` tolerance. -/
def is_valid_session_name (s : String) : Bool :=
  !(dollarCore s.data).isEmpty &&
    (dollarCore s.data).all (fun c => asciiAlphanum c || c == '_' || c == '-')

/-- The characters `shlex.quote` leaves unquoted (ASCII): word characters
and `@ % + = : , . - /` (the complement of its `_find_unsafe` regex). -/
def shlexSafeChar (c : Char) : Bool :=
  asciiAlphanum c || c == '_' || c == '@' || c == '%' || c == '+' || c == '=' ||
    c == ':' || c == ',' || c == '.' || c == '/' || c == '-'

/-- `shlex.quote(s)`: empty becomes `''`; a string of safe characters is
returned unchanged; anything else is wrapped in single quotes with embedded
quotes rewritten. -/
def shlexQuote (s : String) : String :=
  if s.data.isEmpty then "''"
  else if s.data.all shlexSafeChar then s
  else
    "'" ++ String.mk ((s.data.map (fun c =>
      if c = '\'' then "'\"'\"'".data else [c])).flatten) ++ "'"

/-- Errors raised by `build_hashcat_command` (and by the validator it
calls). -/
inductive BuildErr where
  | badPath (msg : String)
  | invalidMaskChars (offending : Finset Char)
  | maskTooLong (len : Nat)
  | invalidSessionName (name : String)
  | sessionTooLong (len : Nat)
deriving DecidableEq

/-- The `attack_params` dict of `build_hashcat_command`.  An outer `none`
means the key is absent. -/
structure AttackParams where
  mode : Option (Option Int) := none
  attack_type : Option String := none
  wordlist : Option (Option String) := none
  rules : Option (Option String) := none
  mask : Option (Option String) := none
  potfile : Option String := none
  session : Option (Option String) := none
  restore : Option Bool := none
  status_timer : Option Int := none
  workload_profile : Option Int := none
deriving DecidableEq

/-- `CommandBuilder.build_hashcat_command` (security.py lines 276–364),
stage by stage in source order: hash file, `-m`, `-a`, wordlist, `-r`,
mask (validated, `shlex.quote`d), `--potfile-path`, the static
`--quiet -w 3 -O`, `--session`, `--restore`, `--status-timer`, `-w`. -/
def build_hashcat_command (validate : String → Bool → Except BuildErr String)
    (hash_file : String) (p : AttackParams) : Except BuildErr (List String) := do
  let hf ← validate hash_file true
  let cmd := ["hashcat", hf]
  let cmd := match p.mode with
    | some (some m) => cmd ++ ["-m", toString m]
    | _ => cmd
  let cmd := match p.attack_type with
    | some "dictionary" => cmd ++ ["-a", "0"]
    | some "mask" => cmd ++ ["-a", "3"]
    | some "hybrid" => cmd ++ ["-a", "6"]
    | _ => cmd
  let cmd ← match p.wordlist with
    | some (some w) =>
      if w = "" then pure cmd
      else do
        let sw ← validate w true
        pure (cmd ++ [sw])
    | _ => pure cmd
  let cmd ← match p.rules with
    | some (some r) =>
      if r = "" then pure cmd
      else do
        let sr ← validate r true
        pure (cmd ++ ["-r", sr])
    | _ => pure cmd
  let cmd ← match p.mask with
    | some (some m) =>
      if m = "" then pure cmd
      else if !is_valid_mask m then
        Except.error (BuildErr.invalidMaskChars
          (m.data.toFinset.filter (fun c => !SAFE_MASK_CHAR c)))
      else if 256 < m.length then
        Except.error (BuildErr.maskTooLong m.length)
      else pure (cmd ++ [shlexQuote m])
    | _ => pure cmd
  let cmd ← match p.potfile with
    | some pf => do
      let spf ← validate pf false
      pure (cmd ++ ["--potfile-path", spf])
    | none => pure cmd
  let cmd := cmd ++ ["--quiet", "-w", "3", "-O"]
  let cmd ← match p.session with
    | some (some s) =>
      if s = "" then pure cmd
      else if !is_valid_session_name s then
        Except.error (BuildErr.invalidSessionName s)
      else if 64 < s.length then
        Except.error (BuildErr.sessionTooLong s.length)
      else pure (cmd ++ ["--session", shlexQuote s])
    | _ => pure cmd
  let cmd := match p.restore with
    | some true => cmd ++ ["--restore"]
    | _ => cmd
  let cmd := match p.status_timer with
    | some t => cmd ++ ["--status-timer", toString t]
    | none => cmd
  let cmd := match p.workload_profile with
    | some wp => if 1 ≤ wp ∧ wp ≤ 4 then cmd ++ ["-w", toString wp] else cmd
    | none => cmd
  pure cmd

/-- A validator that accepts every path unchanged (used to instantiate
theorems; the claims under study do not hinge on path validation). -/
def okValidate : String → Bool → Except BuildErr String :=
  fun p _ => Except.ok p

/-- An `Optional[str]` field appended alone when truthy. -/
def optItem : Option String → List String
  | some s => if s = "" then [] else [s]
  | none => []

/-- An `Optional[str]` rules field appended as `-r <rules>` when truthy. -/
def optRule : Option String → List String
  | some r => if r = "" then [] else ["-r", r]
  | none => []

/-- `Attack.to_hashcat_args` (attack_orchestrator.py lines 33–59).  Note
`if self.mode:` — Python truthiness, so mode `None` **and mode `0`** both
skip the `-m` pair. -/
def Attack.to_hashcat_args (a : Attack) : List String :=
  (match a.mode with
    | some m => if m = 0 then [] else ["-m", toString m]
    | none => []) ++
    (if a.attack_type = "dictionary" then
      ["-a", "0"] ++ optItem a.wordlist ++ optRule a.rules
    else if a.attack_type = "mask" then ["-a", "3"] ++ optItem a.mask
    else if a.attack_type = "hybrid" then
      ["-a", "6"] ++ optItem a.wordlist ++ optItem a.mask
    else [])

/-- The `attack_params` dict built inside `_run_hashcat_attack_secure`
(hashwrap_v3.py lines 582–589): exactly the keys `mode`, `attack_type`,
`wordlist`, `rules`, `mask`, `potfile` — **no** `session`, `restore`,
`status_timer` or `workload_profile` key. -/
def runParamsOfAttack (a : Attack) (potfile : String) : AttackParams :=
  { mode := some a.mode
    attack_type := some a.attack_type
    wordlist := some a.wordlist
    rules := some a.rules
    mask := some a.mask
    potfile := some potfile }

/-- The `attack_params` dict assembled in `_execute_attacks_from_queue`
(hashwrap_v3.py lines 523–534) — including `session`, `restore`,
`status_timer` (default 10) and `workload_profile` (default 3) from the
session config.  This dict is **never used**: the next statement calls
`self._run_hashcat_attack_secure(attack)`, which rebuilds
`runParamsOfAttack` from the attack alone. -/
def queueLoopParams (a : Attack) (cfgRestore : Bool) (cfgSession : Option String)
    (potfile : String) : AttackParams :=
  { mode := some a.mode
    attack_type := some a.attack_type
    wordlist := some a.wordlist
    rules := some a.rules
    mask := some a.mask
    potfile := some potfile
    session := some cfgSession
    restore := some cfgRestore
    status_timer := some 10
    workload_profile := some 3 }

/-- The `--restore` gate of `_run_auto` (hashwrap_v3.py lines 268–277):
with `--restore` but no `--session` it prints the error and returns;
with both it proceeds to `_restore_session`. -/
def v3AutoRestoreGate (restore : Bool) (session : Option String) :
    Except String Unit :=
  if restore then
    match session with
    | none => Except.error "--restore requires --session NAME"
    | some _ => Except.ok ()
  else Except.ok ()

/-- The argv actually built for each attack of a restored queue
(`_execute_attacks_from_queue` calling `_run_hashcat_attack_secure`): the
parameters come from `runParamsOfAttack`, independent of the session
config's restore flag. -/
def execQueueCmds (attacks : List Attack) (potfile : String)
    (remaining : String) : List (Except BuildErr (List String)) :=
  attacks.map (fun a =>
    build_hashcat_command okValidate remaining (runParamsOfAttack a potfile))

/-! ## `EnhancedSessionManager.resume_session` (src/core/enhanced_session_manager.py
448–480) and `HashwrapV3._restore_session` (src/hashwrap_v3.py 966–1032)

A persisted session record.  The session store is a lookup function (the
on-disk `session_<id>/session.json` files); pending attacks are the dicts
saved by `set_attack_queue`, re-read with `.get(key, default)`. -/

/-- A pending-attack snapshot dict; `none` means the key is absent. -/
structure AttackSnapshot where
  priority : Option Int := none
  name : Option String := none
  attack_type : Option String := none
  wordlist : Option String := none
  rules : Option String := none
  mask : Option String := none
  mode : Option Int := none
deriving DecidableEq

/-- `Attack(priority=d.get('priority', 99), name=d.get('name', 'Unknown'),
attack_type=d.get('attack_type', 'dictionary'), …)` (hashwrap_v3.py lines
1017–1025); the dataclass defaults fill the rest. -/
def attackOfSnapshot (d : AttackSnapshot) : Attack :=
  { priority := d.priority.getD 99
    name := d.name.getD "Unknown"
    attack_type := d.attack_type.getD "dictionary"
    wordlist := d.wordlist
    rules := d.rules
    mask := d.mask
    mode := d.mode }

/-- The fields of a persisted `SessionState` that the resume path reads. -/
structure SessionState where
  session_id : String
  status : String
  hash_file : String
  total_hashes : Nat
  cracked_hashes : Nat
  pending_attacks : List AttackSnapshot
  hashcat_session : Option String
  config_restore : Bool
  hot_reload_enabled : Bool
deriving DecidableEq

/-- `EnhancedSessionManager.resume_session` (lines 448–480): load the
record; set status to `running` **only** when the current status is
`created`, `paused` or `error` — any other status (`completed`,
`aborted`, `running`) is returned unchanged. -/
def resume_session (store : String → Option SessionState) (sid : String) :
    Option SessionState :=
  match store sid with
  | none => none
  | some st =>
    if st.status = "created" ∨ st.status = "paused" ∨ st.status = "error" then
      some { st with status := "running" }
    else some st

/-- How `_restore_session` can fail before executing the queue. -/
inductive RestoreErr where
  | sessionNotFound
  | zeroDivision
  | hashFileMissing
  | attributeError
deriving DecidableEq

/-- `HashwrapV3._restore_session` (lines 966–1032) up to queue
reconstruction: resume the record; display progress — a
`ZeroDivisionError` when `total_hashes == 0`, *before* any path check —
validate that the hash file still exists (distinct error otherwise);
construct `HashManager(hash_file, potfile, streaming_mode=total>1000000)`;
set the config restore flag when a native restore file exists for the
session's hashcat session; convert every pending snapshot and push it onto
the orchestrator heap (`_execute_attacks_from_queue`'s `add_attack`
loop). -/
def restoreSession (store : String → Option SessionState) (sid : String)
    (hashFileExists : Bool) (lines : List String) (pot : Option (List String))
    (restoreFileExists : Bool) :
    Except RestoreErr (SessionState × HashManagerState × List Attack) :=
  match resume_session store sid with
  | none => Except.error RestoreErr.sessionNotFound
  | some st =>
    if st.total_hashes = 0 then Except.error RestoreErr.zeroDivision
    else if hashFileExists = false then Except.error RestoreErr.hashFileMissing
    else
      match loadInitialState hashFileExists lines pot
          (decide (1000000 < st.total_hashes)) with
      | Except.error _ => Except.error RestoreErr.attributeError
      | Except.ok hm =>
        let st' := { st with config_restore :=
          st.config_restore || (st.hashcat_session.isSome && restoreFileExists) }
        Except.ok (st', hm,
          (st'.pending_attacks.map attackOfSnapshot).foldl heappush [])

/-! ### Claim C6 -/

/-- The `attack_params` of a pure mask attack: the shape under which the
mask stage is reached with no earlier file validations. -/
def c6Params (M : String) : AttackParams :=
  { attack_type := some "mask", mask := some (some M) }

/-- C6 counterexample.  Python's `$` in `^[?ludsahHx0-9a-zA-Z]+$` also
matches just before a single trailing newline, so the real
`is_valid_mask` accepts `"?l\n"` although `'\n'` is outside the safe set,
and `build_hashcat_command` emits an argv containing the (quoted, newline
included) mask — "accepts iff every character lies in the safe set" and
"produces no argv on violation" both fail. -/
theorem C6_counterexample :
    SAFE_MASK_CHAR '\n' = false
    ∧ is_valid_mask "?l\n" = true
    ∧ build_hashcat_command okValidate "hashes.txt" (c6Params "?l\n") =
        Except.ok ["hashcat", "hashes.txt", "-a", "3", "'?l\n'",
          "--quiet", "-w", "3", "-O"] := by
  exact ⟨by decide, by decide, by decide⟩

/-- C6 (amended).  The mask validation used by `build_hashcat_command` on a
(non-empty — an empty mask is falsy and skips the stage entirely) mask `M`
accepts iff, after discounting at most **one trailing newline** (the `$`
quirk; first conjunct characterizes `is_valid_mask` exactly), at least one
character remains and every remaining character lies in
`?ludsahHx0-9a-zA-Z`; a rejected mask raises a `ValueError` listing
exactly the offending characters of the whole mask and produces no argv;
an accepted mask longer than 256 characters raises the too-long
`ValueError`; otherwise the (`shlex.quote`d) mask lands in the argv.
This holds for every path validator that accepted the hash file. -/
theorem C6_mask_validation (validate : String → Bool → Except BuildErr String)
    (hash_file hf M : String) (hv : validate hash_file true = Except.ok hf)
    (hM : M ≠ "") :
    (is_valid_mask M = true ↔
      ∃ core, (M.data = core ∨ M.data = core ++ ['\n']) ∧ core ≠ [] ∧
        core.all SAFE_MASK_CHAR = true)
    ∧ (is_valid_mask M = false →
      build_hashcat_command validate hash_file (c6Params M) =
        Except.error (BuildErr.invalidMaskChars
          (M.data.toFinset.filter (fun c => !SAFE_MASK_CHAR c))))
    ∧ (is_valid_mask M = true → 256 < M.length →
      build_hashcat_command validate hash_file (c6Params M) =
        Except.error (BuildErr.maskTooLong M.length))
    ∧ (is_valid_mask M = true → M.length ≤ 256 →
      build_hashcat_command validate hash_file (c6Params M) =
        Except.ok ["hashcat", hf, "-a", "3", shlexQuote M,
          "--quiet", "-w", "3", "-O"]) := by
  refine ⟨?_, ?_, ?_, ?_⟩
  · constructor
    · intro h
      unfold is_valid_mask dollarCore at h
      by_cases hlast : M.data.getLast? = some '\n'
      · rw [if_pos hlast] at h
        rcases List.eq_nil_or_concat M.data with hc | ⟨l', a, hc⟩
        · rw [hc] at hlast
          simp at hlast
        · rw [List.concat_eq_append] at hc
          have ha : a = '\n' := by
            rw [hc, List.getLast?_concat] at hlast
            exact Option.some.inj hlast
          rw [hc, ha, List.dropLast_concat] at h
          rw [Bool.and_eq_true, Bool.not_eq_true'] at h
          refine ⟨l', Or.inr (by rw [hc, ha]), ?_, h.2⟩
          intro hnil
          rw [hnil] at h
          simp at h
      · rw [if_neg hlast] at h
        rw [Bool.and_eq_true, Bool.not_eq_true'] at h
        refine ⟨M.data, Or.inl rfl, ?_, h.2⟩
        intro hnil
        rw [hnil] at h
        simp at h
    · rintro ⟨core, hcases, hne, hall⟩
      unfold is_valid_mask dollarCore
      have hemp : core.isEmpty = false := by
        cases core with
        | nil => exact absurd rfl hne
        | cons c cs => rfl
      rcases hcases with hc | hc
      · have hlast : ¬ M.data.getLast? = some '\n' := by
          rw [hc]
          intro hsome
          rcases List.eq_nil_or_concat core with h0 | ⟨l', a, h0⟩
          · rw [h0] at hsome
            simp at hsome
          · rw [List.concat_eq_append] at h0
            rw [h0, List.getLast?_concat] at hsome
            have ha : a = '\n' := Option.some.inj hsome
            rw [h0, ha] at hall
            have hsafe := (List.all_eq_true.mp hall) '\n' (by simp)
            exact absurd hsafe (by decide)
        rw [if_neg hlast, hc, hemp, hall]
        rfl
      · have hlast : M.data.getLast? = some '\n' := by
          rw [hc, List.getLast?_concat]
        rw [if_pos hlast, hc, List.dropLast_concat, hemp, hall]
        rfl
  · intro hinv
    simp only [build_hashcat_command, c6Params, hv]
    simp only [if_neg hM]
    simp [hinv, Except.bind]
    rfl
  · intro hval hlen
    simp only [build_hashcat_command, c6Params, hv]
    simp only [if_neg hM]
    simp [hval, hlen, Except.bind]
    rfl
  · intro hval hlen
    simp only [build_hashcat_command, c6Params, hv]
    simp only [if_neg hM]
    simp [hval, Nat.not_lt.mpr hlen, Except.bind]

/-- Witness for `C6_mask_validation`: the mask `?l*` is rejected listing
exactly `*`; the mask `?l?u` is accepted (and `shlex.quote`d, `?` not
being shell-safe). -/
theorem C6_mask_validation_witness :
    build_hashcat_command okValidate "hashes.txt" (c6Params "?l*") =
      Except.error (BuildErr.invalidMaskChars {'*'})
    ∧ build_hashcat_command okValidate "hashes.txt" (c6Params "?l?u") =
      Except.ok ["hashcat", "hashes.txt", "-a", "3", "'?l?u'",
        "--quiet", "-w", "3", "-O"] := by
  constructor
  · have h := (C6_mask_validation okValidate "hashes.txt" "hashes.txt" "?l*" rfl
      (by decide)).2.1 (by decide)
    have hs : ("?l*".data.toFinset.filter (fun c => !SAFE_MASK_CHAR c)) =
        ({'*'} : Finset Char) := by decide
    rw [hs] at h
    exact h
  · have h := (C6_mask_validation okValidate "hashes.txt" "hashes.txt" "?l?u" rfl
      (by decide)).2.2.2 (by decide) (by decide)
    have hq : shlexQuote "?l?u" = "'?l?u'" := by decide
    rw [hq] at h
    exact h

/-! ### Claim C10 -/

theorem mem_optItem {s : Option String} {x : String} (h : x ∈ optItem s) :
    s = some x := by
  cases s with
  | none => exact absurd h (by simp [optItem])
  | some v =>
    rw [show optItem (some v) = if v = "" then [] else [v] from rfl] at h
    split at h
    · exact absurd h (List.not_mem_nil x)
    · rw [List.mem_singleton] at h
      rw [h]

theorem mem_optRule {s : Option String} {x : String} (h : x ∈ optRule s) :
    x = "-r" ∨ s = some x := by
  cases s with
  | none => exact absurd h (by simp [optRule])
  | some v =>
    rw [show optRule (some v) = if v = "" then [] else ["-r", v] from rfl] at h
    split at h
    · exact absurd h (List.not_mem_nil x)
    · rw [List.mem_cons, List.mem_singleton] at h
      rcases h with h | h
      · exact Or.inl h
      · exact Or.inr (by rw [h])

/-- C10.  `Attack.to_hashcat_args` emits the `-m <mode>` pair iff the mode
is non-`None` **and non-zero** (`if self.mode:` is Python truthiness), so
for mode 0 — hashcat's MD5 — the flag is silently omitted; whereas
`build_hashcat_command`, fed the params `_run_hashcat_attack_secure` builds
from the same attack, checks `is not None` and emits `-m <mode>` whenever a
mode is present, `0` included.  The two argv builders disagree exactly on
mode 0.  (The side conditions keep the literal string `-m` out of the
file-name fields.) -/
theorem C10_mode_flag (a : Attack)
    (hw : a.wordlist ≠ some "-m") (hr : a.rules ≠ some "-m")
    (hm : a.mask ≠ some "-m") :
    (("-m" ∈ a.to_hashcat_args) ↔ ∃ m, a.mode = some m ∧ m ≠ 0)
    ∧ (a.mode = some 0 → "-m" ∉ a.to_hashcat_args)
    ∧ (∀ hash_file potfile : String, a.wordlist = none → a.rules = none →
        a.mask = none → a.attack_type = "dictionary" →
        build_hashcat_command okValidate hash_file (runParamsOfAttack a potfile) =
          Except.ok (["hashcat", hash_file] ++
            (match a.mode with
              | some m => ["-m", toString m]
              | none => []) ++
            ["-a", "0", "--potfile-path", potfile, "--quiet", "-w", "3", "-O"])) := by
  have hrest : "-m" ∉
      (if a.attack_type = "dictionary" then
        ["-a", "0"] ++ optItem a.wordlist ++ optRule a.rules
      else if a.attack_type = "mask" then ["-a", "3"] ++ optItem a.mask
      else if a.attack_type = "hybrid" then
        ["-a", "6"] ++ optItem a.wordlist ++ optItem a.mask
      else []) := by
    intro hmem
    split at hmem
    · rcases List.mem_append.mp hmem with hmem | hmem
      · rcases List.mem_append.mp hmem with hmem | hmem
        · simp at hmem
        · exact hw (mem_optItem hmem)
      · rcases mem_optRule hmem with hmem | hmem
        · simp at hmem
        · exact hr hmem
    · split at hmem
      · rcases List.mem_append.mp hmem with hmem | hmem
        · simp at hmem
        · exact hm (mem_optItem hmem)
      · split at hmem
        · rcases List.mem_append.mp hmem with hmem | hmem
          · rcases List.mem_append.mp hmem with hmem | hmem
            · simp at hmem
            · exact hw (mem_optItem hmem)
          · exact hm (mem_optItem hmem)
        · exact List.not_mem_nil _ hmem
  refine ⟨⟨?_, ?_⟩, ?_, ?_⟩
  · intro h
    unfold Attack.to_hashcat_args at h
    rcases List.mem_append.mp h with h | h
    · cases hmode : a.mode with
      | none =>
        rw [hmode] at h
        exact absurd h (List.not_mem_nil _)
      | some m =>
        rw [hmode] at h
        dsimp only at h
        by_cases hm0 : m = 0
        · rw [if_pos hm0] at h
          exact absurd h (List.not_mem_nil _)
        · exact ⟨m, rfl, hm0⟩
    · exact absurd h hrest
  · rintro ⟨m, hmode, hm0⟩
    unfold Attack.to_hashcat_args
    rw [hmode]
    dsimp only
    rw [if_neg hm0]
    exact List.mem_append_left _ (List.mem_cons_self _ _)
  · intro hmode0 h
    unfold Attack.to_hashcat_args at h
    rw [hmode0] at h
    dsimp only at h
    rw [if_pos rfl, List.nil_append] at h
    exact hrest h
  · intro hash_file potfile hwl hrl hml hat
    cases hmode : a.mode with
    | none =>
      simp [build_hashcat_command, runParamsOfAttack, okValidate,
        hwl, hrl, hml, hat, hmode, Except.bind]
      rfl
    | some m =>
      simp [build_hashcat_command, runParamsOfAttack, okValidate,
        hwl, hrl, hml, hat, hmode, Except.bind]
      rfl

/-- A dictionary attack on mode 0 (MD5). -/
def c10Attack : Attack :=
  { priority := 2, name := "md5-dict", attack_type := "dictionary", mode := some 0 }

/-- Witness for `C10_mode_flag`: for the mode-0 attack, `to_hashcat_args`
omits `-m` while the secure builder emits `-m 0`. -/
theorem C10_mode_flag_witness :
    "-m" ∉ c10Attack.to_hashcat_args
    ∧ build_hashcat_command okValidate "hashes.txt"
        (runParamsOfAttack c10Attack "hashcat.pot") =
      Except.ok ["hashcat", "hashes.txt", "-m", "0", "-a", "0",
        "--potfile-path", "hashcat.pot", "--quiet", "-w", "3", "-O"] := by
  constructor
  · exact (C10_mode_flag c10Attack (by decide) (by decide) (by decide)).2.1 rfl
  · exact (C10_mode_flag c10Attack (by decide) (by decide) (by decide)).2.2
      "hashes.txt" "hashcat.pot" rfl rfl rfl rfl

/-! ### Claim C8 -/

/-- First pending attack of a restored queue: a dictionary attack. -/
def c8a1 : Attack :=
  { priority := 1, name := "quick-dict", attack_type := "dictionary",
    wordlist := some "w.txt", mode := some 1000 }

/-- Second pending attack of a restored queue: a mask attack. -/
def c8a2 : Attack :=
  { priority := 5, name := "mask4", attack_type := "mask",
    mask := some "?l?l?l?l", mode := some 1000 }

/-- C8.  The `--restore requires --session` gate is real (first two
conjuncts).  But the restore flag never reaches any attack's argv: in the
restored-queue run the commands actually built (via
`_run_hashcat_attack_secure`, which rebuilds its `attack_params` from the
attack alone) contain `--restore` for **zero** attacks, not exactly one —
even with the session config's restore flag set by a present native
restore file.  The `attack_params` dict that `_execute_attacks_from_queue`
assembles *with* the restore key (and which the line-557 flag-clearing
logic presupposes) is dead code; had it been passed, the first command
would have carried `--restore` (last conjunct). -/
theorem C8_restore_flag_dead :
    v3AutoRestoreGate true none = Except.error "--restore requires --session NAME"
    ∧ v3AutoRestoreGate true (some "mysess") = Except.ok ()
    ∧ execQueueCmds [c8a1, c8a2] "hashcat.pot" "rem.txt" =
        [Except.ok ["hashcat", "rem.txt", "-m", "1000", "-a", "0", "w.txt",
            "--potfile-path", "hashcat.pot", "--quiet", "-w", "3", "-O"],
          Except.ok ["hashcat", "rem.txt", "-m", "1000", "-a", "3", "'?l?l?l?l'",
            "--potfile-path", "hashcat.pot", "--quiet", "-w", "3", "-O"]]
    ∧ ((execQueueCmds [c8a1, c8a2] "hashcat.pot" "rem.txt").filter (fun r =>
          match r with
          | Except.ok c => c.contains "--restore"
          | Except.error _ => false)).length = 0
    ∧ build_hashcat_command okValidate "rem.txt"
        (queueLoopParams c8a1 true (some "mysess") "hashcat.pot") =
      Except.ok ["hashcat", "rem.txt", "-m", "1000", "-a", "0", "w.txt",
        "--potfile-path", "hashcat.pot", "--quiet", "-w", "3", "-O",
        "--session", "mysess", "--restore", "--status-timer", "10", "-w", "3"] := by
  refine ⟨rfl, rfl, by decide, by decide, by decide⟩

/-! ### Claim C7 -/

/-- A persisted session that already ran to completion. -/
def c7Completed : SessionState :=
  { session_id := "s1", status := "completed", hash_file := "h.txt",
    total_hashes := 1, cracked_hashes := 1, pending_attacks := [],
    hashcat_session := none, config_restore := false,
    hot_reload_enabled := false }

/-- A session store holding only `c7Completed`. -/
def c7Store : String → Option SessionState :=
  fun s => if s = "s1" then some c7Completed else none

/-- The `HashManager` state loaded from hash file `["a"]`, no potfile. -/
def c7Hm : HashManagerState :=
  { hashFileLines := ["a"]
    streaming_mode := false
    hasStreamProcessor := false
    original_hashes := {"a"}
    cracked_hashes := []
    remaining_hashes := {"a"}
    attack_effectiveness := []
    total_hash_count := 0
    tempFiles := [] }

/-- C7 counterexample.  Resuming a `completed` session does **not** set the
status to `running` — `resume_session` only promotes `created`, `paused`
and `error` — yet `_restore_session` proceeds with it unchanged: the claim
"sets the session status to Running" fails. -/
theorem C7_counterexample :
    resume_session c7Store "s1" = some c7Completed
    ∧ c7Completed.status ≠ "running"
    ∧ restoreSession c7Store "s1" true ["a"] none false =
        Except.ok (c7Completed, c7Hm, []) := by decide

/-- C7 (amended).  Provided the persisted status is `created`, `paused` or
`error`, `0 < total_hashes` (the progress display divides by it before any
validation) and `total_hashes ≤ 1 000 000` (above that the streaming-mode
`HashManager` constructor raises `AttributeError`), and the in-memory load
of the hash file succeeds: resuming sets the status to `running`, loads
the index from the hash file honouring the potfile, flags the config for
restore when a native restore file exists, and reconstructs the attack
queue by pushing every pending snapshot — a well-formed heap holding
exactly the snapshots' attacks.  If the original hash file no longer
exists, the resume fails with the distinct `hashFileMissing` error. -/
theorem C7_resume_restore (store : String → Option SessionState) (sid : String)
    (st : SessionState) (lines : List String) (pot : Option (List String))
    (hm : HashManagerState) (rfe : Bool)
    (hstore : store sid = some st)
    (hstatus : st.status = "created" ∨ st.status = "paused" ∨ st.status = "error")
    (h0 : 0 < st.total_hashes) (hcap : st.total_hashes ≤ 1000000)
    (hload : loadInitialState true lines pot false = Except.ok hm) :
    (restoreSession store sid true lines pot rfe =
        Except.ok
          ({ st with
              status := "running"
              config_restore :=
                st.config_restore || (st.hashcat_session.isSome && rfe) },
            hm, (st.pending_attacks.map attackOfSnapshot).foldl heappush []))
    ∧ restoreSession store sid false lines pot rfe =
        Except.error RestoreErr.hashFileMissing
    ∧ HeapProp ((st.pending_attacks.map attackOfSnapshot).foldl heappush [])
    ∧ List.Perm ((st.pending_attacks.map attackOfSnapshot).foldl heappush [])
        (st.pending_attacks.map attackOfSnapshot) := by
  have hres : resume_session store sid = some { st with status := "running" } := by
    unfold resume_session
    rw [hstore]
    dsimp only
    rw [if_pos hstatus]
  have hne : ({ st with status := "running" } : SessionState).total_hashes ≠ 0 := by
    show st.total_hashes ≠ 0
    omega
  have hsm : (decide
      (1000000 < ({ st with status := "running" } : SessionState).total_hashes))
      = false := by
    show decide (1000000 < st.total_hashes) = false
    simp
    omega
  refine ⟨?_, ?_, ?_, ?_⟩
  · unfold restoreSession
    rw [hres]
    dsimp only
    rw [if_neg hne]
    rw [if_neg (by simp : ¬ (true = false))]
    rw [hsm, hload]
  · unfold restoreSession
    rw [hres]
    dsimp only
    rw [if_neg hne]
    rw [if_pos rfl]
  · exact foldl_heappush_heapProp _ []
      (by intro i j hc hj; simp at hj)
  · simpa using foldl_heappush_perm (st.pending_attacks.map attackOfSnapshot) []

/-- A pending-attack snapshot with explicit fields. -/
def snapA : AttackSnapshot :=
  { priority := some 1, name := some "quick", attack_type := some "dictionary",
    wordlist := some "w.txt" }

/-- A pending-attack snapshot with every key absent: all `.get` defaults
apply. -/
def snapB : AttackSnapshot := {}

/-- A paused session with two pending attacks and a hashcat session. -/
def c7Paused : SessionState :=
  { session_id := "s2", status := "paused", hash_file := "h.txt",
    total_hashes := 2, cracked_hashes := 0, pending_attacks := [snapA, snapB],
    hashcat_session := some "hs", config_restore := false,
    hot_reload_enabled := true }

/-- A session store holding only `c7Paused`. -/
def c7PStore : String → Option SessionState :=
  fun s => if s = "s2" then some c7Paused else none

/-- The `HashManager` state loaded from hash file `["a", "b"]`, no
potfile. -/
def c7Hm2 : HashManagerState :=
  { hashFileLines := ["a", "b"]
    streaming_mode := false
    hasStreamProcessor := false
    original_hashes := {"a", "b"}
    cracked_hashes := []
    remaining_hashes := {"a", "b"}
    attack_effectiveness := []
    total_hash_count := 0
    tempFiles := [] }

/-- Witness for `C7_resume_restore` on a paused two-attack session with a
present native restore file. -/
theorem C7_resume_restore_witness :
    restoreSession c7PStore "s2" true ["a", "b"] none true =
      Except.ok
        ({ c7Paused with
            status := "running"
            config_restore :=
              c7Paused.config_restore || (c7Paused.hashcat_session.isSome && true) },
          c7Hm2, ([snapA, snapB].map attackOfSnapshot).foldl heappush [])
    ∧ restoreSession c7PStore "s2" false ["a", "b"] none true =
        Except.error RestoreErr.hashFileMissing := by
  have h := C7_resume_restore c7PStore "s2" c7Paused ["a", "b"] none c7Hm2 true
    (by decide) (Or.inr (Or.inl rfl)) (by decide) (by decide) (by decide)
  exact ⟨h.1, h.2.1⟩

end Hashwrap
